import Mathlib

/-!
Formal model of the stats engine of `untis-tools` (`src/worker/stats.ts`).

The engine is a pure batch computation over lesson and absence records.
JavaScript-specific semantics are modelled explicitly:

* `x || d` on numbers treats both `undefined` and `0` as falsy (`jsOrNat`);
  on strings it treats `undefined` and `""` as falsy (`jsOrStr`).
* Missing fields are `Option`s.
* day-code decoding in `incrementUntisDate` works on
  `dateNum.toString().padStart(8, '0')` and takes the fixed slices
  `[0,4)`, `[4,6)`, `[6,8)`.  For a decimal numeral of `L = max 8 (digits n)`
  characters these slices are exactly `n / 10^(L-4)`, `n / 10^(L-6) % 100`
  and `n / 10^(L-8) % 100`, which is how `decodeYear/Month/Day` are defined.
* `new Date(year, month - 1, day)` applies the JavaScript calendar
  normalisation: a year in `0..99` means `1900 + year`, the month index is
  reduced modulo 12 into the year, day `0` borrows from the previous month
  and days beyond the month length carry forward.  `setDate(getDate() + 1)`
  then moves to the next calendar day.
* The ambient clock (`new Date()` inside the engine) is modelled as an
  explicit day-code argument `today`; `setHours(0,0,0,0)` truncation and the
  fact that parsed ISO dates are midnights let all date comparisons be
  performed at whole-day granularity on day-codes, whose numeric order
  coincides with chronological order for calendar dates.
-/

namespace UntisStats

/-- Model of the JavaScript numeric default `x || d`: `undefined` and `0`
are falsy, every other number is returned unchanged. -/
def jsOrNat (x : Option Nat) (d : Nat) : Nat :=
  match x with
  | none => d
  | some n => if n = 0 then d else n

/-- Model of JavaScript numeric truthiness `!!x` for an optional number. -/
def truthyNat (x : Option Nat) : Bool :=
  match x with
  | none => false
  | some n => decide (n ≠ 0)

/-- Model of the JavaScript string default `x || d`: `undefined` and the
empty string are falsy. -/
def jsOrStr (x : Option String) (d : String) : String :=
  match x with
  | none => d
  | some s => if s = "" then d else s

/-- Character for a decimal digit (`0 ≤ d ≤ 9`). -/
def digitChar (d : Nat) : Char := Char.ofNat (48 + d)

/-- Decimal digit characters of `n`, most significant first; fuelled so that
the definition is structural (the fuel `n + 1` always suffices). -/
def natDigitsAux : Nat → Nat → List Char
  | 0, _ => []
  | fuel + 1, n => if n < 10 then [digitChar n] else natDigitsAux fuel (n / 10) ++ [digitChar (n % 10)]

/-- Model of JavaScript `n.toString()` for a non-negative integer. -/
def natRepr (n : Nat) : String := String.mk (natDigitsAux (n + 1) n)

/-- Number of decimal digits of `n` (1 for `n = 0`); fuelled structural
recursion, fuel `n` always suffices. -/
def numDigitsAux : Nat → Nat → Nat
  | 0, _ => 1
  | fuel + 1, n => if n < 10 then 1 else 1 + numDigitsAux fuel (n / 10)

/-- Number of decimal digits of `n`. -/
def numDigits (n : Nat) : Nat := numDigitsAux n n

/-- Length of `n.toString().padStart(8, '0')`. -/
def padLen (n : Nat) : Nat := max 8 (numDigits n)

/-- Slice `[0,4)` of the zero-padded decimal numeral, as a number:
the `year` component read by `incrementUntisDate`. -/
def decodeYear (n : Nat) : Nat := n / 10 ^ (padLen n - 4)

/-- Slice `[4,6)` of the zero-padded decimal numeral, as a number:
the `month` component read by `incrementUntisDate`. -/
def decodeMonth (n : Nat) : Nat := n / 10 ^ (padLen n - 6) % 100

/-- Slice `[6,8)` of the zero-padded decimal numeral, as a number:
the `day` component read by `incrementUntisDate`. -/
def decodeDay (n : Nat) : Nat := n / 10 ^ (padLen n - 8) % 100

/-- Gregorian leap-year rule (as used by JavaScript `Date`). -/
def isLeapYear (y : Nat) : Bool := (y % 4 == 0 && y % 100 != 0) || y % 400 == 0

/-- Days in month `m` (1–12) of year `y`. -/
def daysInMonth (y m : Nat) : Nat :=
  if m = 2 then (if isLeapYear y then 29 else 28)
  else if m = 4 ∨ m = 6 ∨ m = 9 ∨ m = 11 then 30
  else 31

/-- JavaScript `Date` month normalisation for `new Date(y, m - 1, _)` where
`m` is the raw two-digit month slice (0–99): month index `m - 1` is reduced
into the year.  Returns the normalised `(year, month)` with month in 1–12. -/
def monthNormalize (y m : Nat) : Nat × Nat :=
  if m = 0 then (y - 1, 12) else (y + (m - 1) / 12, (m - 1) % 12 + 1)

/-- Previous month with year rollover. -/
def monthPred (y m : Nat) : Nat × Nat := if m = 1 then (y - 1, 12) else (y, m - 1)

/-- Carry a day count that may exceed the month length forward into later
months (JavaScript `Date` day normalisation); fuelled, 8 steps are enough
for a raw day slice of at most 99. -/
def dayCarry : Nat → Nat × Nat × Nat → Nat × Nat × Nat
  | 0, s => s
  | fuel + 1, (y, m, d) =>
    if d ≤ daysInMonth y m then (y, m, d)
    else if m = 12 then dayCarry fuel (y + 1, 1, d - daysInMonth y m)
    else dayCarry fuel (y, m + 1, d - daysInMonth y m)

/-- JavaScript `Date` day normalisation for a raw day slice `d` (0–99):
day `0` is the last day of the previous month, days beyond the month
length carry forward. -/
def dayNormalize (y m d : Nat) : Nat × Nat × Nat :=
  if d = 0 then
    (let p := monthPred y m
     (p.1, p.2, daysInMonth p.1 p.2))
  else dayCarry 8 (y, m, d)

/-- Next calendar day of a normalised date. -/
def nextDayT : Nat × Nat × Nat → Nat × Nat × Nat
  | (y, m, d) =>
    if d < daysInMonth y m then (y, m, d + 1)
    else if m < 12 then (y, m + 1, 1)
    else (y + 1, 1, 1)

/-- Model of `` parseInt(`${newYear}${newMonth}${newDay}`) `` where month and
day are zero-padded to two characters: for `m, d ≤ 99` the concatenated
numeral denotes exactly this number. -/
def encodeYMD : Nat × Nat × Nat → Nat
  | (y, m, d) => y * 10000 + m * 100 + d

/-- Model of `incrementUntisDate` from `src/worker/stats.ts`: decode the
padded 8-character slices, build a JavaScript `Date` (with its year-1900
quirk and month/day normalisation), add one day, and re-encode. -/
def incrementUntisDate (n : Nat) : Nat :=
  let y := decodeYear n
  let m := decodeMonth n
  let d := decodeDay n
  let y1 := if y < 100 then 1900 + y else y
  let ym := monthNormalize y1 m
  let t := dayNormalize ym.1 ym.2 d
  encodeYMD (nextDayT t)

/-- Iterated `incrementUntisDate` (the successive values of the running
date of the absence-expansion loop). -/
def iterInc : Nat → Nat → Nat
  | 0, n => n
  | k + 1, n => iterInc k (incrementUntisDate n)

/-- Previous calendar day of a valid date triple. -/
def prevDayT : Nat × Nat × Nat → Nat × Nat × Nat
  | (y, m, d) =>
    if 2 ≤ d then (y, m, d - 1)
    else if 2 ≤ m then (y, m - 1, daysInMonth y (m - 1))
    else (y - 1, 12, 31)

/-- Previous calendar day of a day-code (used to model `setDate(getDate() - i)`
on the true "now" date, which has no string-decoding quirks). -/
def prevDayCode (n : Nat) : Nat :=
  encodeYMD (prevDayT (decodeYear n, decodeMonth n, decodeDay n))

/-- Model of `d.setDate(d.getDate() - i)` on the ambient "now" date:
`i`-fold previous calendar day. -/
def subDays (n : Nat) : Nat → Nat
  | 0 => n
  | i + 1 => prevDayCode (subDays n i)

/-- Model of JavaScript `s.slice(a, b)` for `0 ≤ a ≤ b`. -/
def strSlice (s : String) (a b : Nat) : String :=
  String.mk ((s.toList.drop a).take (b - a))

/-- Model of `formatUntisDate` from `src/worker/stats.ts`: slices `[0,4)`,
`[4,6)`, `[6,8)` of the (unpadded) decimal string joined with dashes. -/
def formatUntisDate (n : Nat) : String :=
  let s := natRepr n
  strSlice s 0 4 ++ "-" ++ strSlice s 4 6 ++ "-" ++ strSlice s 6 8

/-- Numeric value of a decimal digit character. -/
def charVal (c : Char) : Nat := c.toNat - 48

/-- Model of `new Date(s)` on the ISO day strings handled by the engine:
a string `"YYYY-MM-DD"` denoting a real calendar date parses to its
day-code (UTC midnight); anything else is an invalid date (`NaN`), which
makes every subsequent comparison false. -/
def parseISODate (s : String) : Option Nat :=
  match s.toList with
  | [y1, y2, y3, y4, h1, m1, m2, h2, d1, d2] =>
    if h1 = '-' ∧ h2 = '-' ∧ y1.isDigit ∧ y2.isDigit ∧ y3.isDigit ∧ y4.isDigit ∧
        m1.isDigit ∧ m2.isDigit ∧ d1.isDigit ∧ d2.isDigit then
      let y := charVal y1 * 1000 + charVal y2 * 100 + charVal y3 * 10 + charVal y4
      let m := charVal m1 * 10 + charVal m2
      let d := charVal d1 * 10 + charVal d2
      if 1 ≤ m ∧ m ≤ 12 ∧ 1 ≤ d ∧ d ≤ daysInMonth y m then some (encodeYMD (y, m, d))
      else none
    else none
  | _ => none

/-- Subject entry of a raw timetable lesson (`lesson.su[0]`): both names
optional. -/
structure SuEntry where
  name : Option String
  longName : Option String
deriving DecidableEq, Repr

/-- Raw timetable lesson record, with the fields read by the engine.
`date` is a day-code, `startTime`/`endTime` are HHMM integers, `code` is
the optional cancellation code. -/
structure Lesson where
  date : Option Nat
  startTime : Option Nat
  endTime : Option Nat
  su : List SuEntry
  code : Option String
deriving DecidableEq, Repr

/-- Raw absence record, with the fields read by the engine. -/
structure Absence where
  startDate : Option Nat
  endDate : Option Nat
  startTime : Option Nat
  endTime : Option Nat
deriving DecidableEq, Repr

/-- Ledger entry produced by the reconciler (`ProcessedLesson` in
`src/worker/types.ts`). -/
structure ProcessedLesson where
  date : String
  subject : String
  isCancelled : Bool
  isAbsent : Bool
deriving DecidableEq, Repr

/-- Time range assigned to one covered day of an absence, depending on its
position in the absence period (`src/worker/stats.ts`, lines 105–124):
single day uses `startTime || 0` and `endTime || 2359`, the first day runs
until end of day, the last day starts at the start of day, interior days
are full days. -/
def absenceIntervalFor (a : Absence) (sd ed day : Nat) : Nat × Nat :=
  if day = sd ∧ day = ed then (jsOrNat a.startTime 0, jsOrNat a.endTime 2359)
  else if day = sd then (jsOrNat a.startTime 0, 2359)
  else if day = ed then (0, jsOrNat a.endTime 2359)
  else (0, 2359)

/-- Date-expansion loop of `processLessonData` (`while (currentDate <= endDate)`),
collecting `(day, timeRange)` for each visited day.  The loop is fuelled;
`expandAbsence` supplies fuel `endDate + 1 - startDate`, which covers every
iteration of the source loop whenever the running date advances by at least
one per step (proved below for calendar day-codes). -/
def expandFrom (a : Absence) (sd ed : Nat) : Nat → Nat → List (Nat × Nat × Nat)
  | 0, _ => []
  | fuel + 1, cur =>
    if cur ≤ ed then (cur, absenceIntervalFor a sd ed cur) :: expandFrom a sd ed fuel (incrementUntisDate cur)
    else []

/-- Per-absence part of the expansion phase of `processLessonData`:
an absence without a truthy `startDate` is skipped (`console.warn` branch),
`endDate` defaults to `startDate` via `||`, then the date range is walked
day by day. -/
def expandAbsence (a : Absence) : List (Nat × Nat × Nat) :=
  match a.startDate with
  | none => []
  | some sd =>
    if sd = 0 then []
    else
      let ed := jsOrNat a.endDate sd
      expandFrom a sd ed (ed + 1 - sd) sd

/-- The `absencesByDate` map of `processLessonData`, represented as the
lookup function from a date string to the list of time ranges filed under
it (per-key insertion order is preserved: absences in input order, days in
loop order). -/
def intervalsForDate (absences : List Absence) (ds : String) : List (Nat × Nat) :=
  absences.flatMap fun a =>
    (expandAbsence a).filterMap fun t =>
      if formatUntisDate t.1 = ds then some t.2 else none

/-- Subject of a lesson: `lesson.su?.[0]?.name || lesson.su?.[0]?.longName || 'Unknown'`. -/
def lessonSubject (l : Lesson) : String :=
  jsOrStr (l.su.head?.bind fun e => e.name)
    (jsOrStr (l.su.head?.bind fun e => e.longName) "Unknown")

/-- Per-lesson part of `processLessonData`: lessons without a truthy `date`
are skipped; `isCancelled` is `lesson.code === 'cancelled'`; a non-cancelled
lesson is absent when its (defaulted) time range overlaps some interval
filed under its date string, via `lessonStart < intervalEnd && lessonEnd >
intervalStart` (the source breaks at the first match, which yields the same
boolean as `any`). -/
def processLesson (absences : List Absence) (l : Lesson) : Option ProcessedLesson :=
  match l.date with
  | none => none
  | some d =>
    if d = 0 then none
    else
      let ds := formatUntisDate d
      let isC := l.code = some "cancelled"
      let lessonStart := jsOrNat l.startTime 0
      let lessonEnd := jsOrNat l.endTime 2359
      let isA := !decide isC &&
        (intervalsForDate absences ds).any fun t => decide (lessonStart < t.2) && decide (t.1 < lessonEnd)
      some { date := ds, subject := lessonSubject l, isCancelled := decide isC, isAbsent := isA }

/-- Model of `processLessonData` from `src/worker/stats.ts`: one ledger
entry per lesson with a truthy date, in input order.  (The `timetableByDate`
map built at the top of the source function is never read afterwards and is
omitted.) -/
def processLessonData (timetable : List Lesson) (absences : List Absence) : List ProcessedLesson :=
  timetable.filterMap (processLesson absences)

/-- Model of JavaScript `Math.round` on exact rationals: round half toward
positive infinity. -/
def jsRound (q : ℚ) : ℤ := ⌊q + 1 / 2⌋

/-- The engine's two-decimal percentage rounding
`Math.round((num / den) * 100 * 100) / 100`, on exact rationals. -/
def ratePercent2 (num den : Nat) : ℚ := ((jsRound (((num : ℚ) / den) * 100 * 100) : ℚ)) / 100

/-- Absence counts for the trailing windows (`AbsenceCounts` in
`src/worker/types.ts`). -/
structure AbsenceCounts where
  last7Days : Nat
  last14Days : Nat
  last30Days : Nat
  allTime : Nat
deriving DecidableEq, Repr

/-- The filter `lessonDate >= cutoff` of `calculateAbsenceCounts`, where
`cutoff` is "now minus `w` days at local midnight": at day granularity a
parsed entry date passes iff its day-code is at least `subDays today w`;
an unparseable date (`NaN`) fails every comparison. -/
def lessonInWindow (today w : Nat) (l : ProcessedLesson) : Bool :=
  match parseISODate l.date with
  | some c => decide (subDays today w ≤ c)
  | none => false

/-- Model of `calculateAbsenceCounts` from `src/worker/stats.ts`; `today` is
the day-code of the ambient `new Date()` (read inside the source function,
not passed by its caller).  Note the source filter has no upper bound, and
`allTime` is `Math.max(0, …)` of the full absent count. -/
def calculateAbsenceCounts (lessons : List ProcessedLesson) (today : Nat) : AbsenceCounts :=
  let countAbsences := fun (w : Nat) => (lessons.filter fun l => lessonInWindow today w l && l.isAbsent).length
  { last7Days := countAbsences 7
    last14Days := countAbsences 14
    last30Days := countAbsences 30
    allTime := max 0 (lessons.filter (fun l => l.isAbsent)).length }

/-- Trend direction. -/
inductive Direction where
  | up
  | down
  | neutral
deriving DecidableEq, Repr

/-- Trend data for one window (`TrendData` in `src/worker/types.ts`; the
source always fills `changePercent` with an integer). -/
structure TrendData where
  previousValue : Nat
  changePercent : Int
  direction : Direction
deriving DecidableEq, Repr

/-- Trend data for the three windows. -/
structure TrendChanges where
  last7Days : TrendData
  last14Days : TrendData
  last30Days : TrendData
deriving DecidableEq, Repr

/-- The filter of `countAbsencesInRange`: `lessonDate >= endDate && lessonDate
<= startDate` where `startDate` is "now minus `s` days at midnight" and
`endDate` is "now minus `e` days at 23:59:59.999".  A parsed entry date (a
midnight) is `>=` the latter iff its day-code is strictly greater than
`subDays today e`, and `<=` the former iff its day-code is at most
`subDays today s`. -/
def inRange (today s e : Nat) (l : ProcessedLesson) : Bool :=
  match parseISODate l.date with
  | some c => decide (subDays today e < c) && decide (c ≤ subDays today s)
  | none => false

/-- Count of absent entries between `s` days ago and `e` days ago, as in
`countAbsencesInRange` of `src/worker/stats.ts`. -/
def countAbsencesInRange (lessons : List ProcessedLesson) (today s e : Nat) : Nat :=
  (lessons.filter fun l => inRange today s e l && l.isAbsent).length

/-- Model of `calculateTrendData` from `src/worker/stats.ts`. -/
def calculateTrendData (current previous : Nat) : TrendData :=
  let changePercent : Int :=
    if previous = 0 then (if 0 < current then 100 else 0)
    else jsRound ((((current : ℚ)) - previous) / previous * 100)
  { previousValue := previous
    changePercent := changePercent
    direction := if 0 < changePercent then Direction.up
      else if changePercent < 0 then Direction.down
      else Direction.neutral }

/-- Model of `calculateTrendChanges` from `src/worker/stats.ts`, with the
source's literal day-offset arguments. -/
def calculateTrendChanges (lessons : List ProcessedLesson) (today : Nat) : TrendChanges :=
  { last7Days := calculateTrendData (countAbsencesInRange lessons today 0 7) (countAbsencesInRange lessons today 8 14)
    last14Days := calculateTrendData (countAbsencesInRange lessons today 0 14) (countAbsencesInRange lessons today 15 28)
    last30Days := calculateTrendData (countAbsencesInRange lessons today 0 30) (countAbsencesInRange lessons today 31 60) }

/-- Per-subject statistics (`SubjectStats` in `src/worker/types.ts`);
`absenceRate` is kept as an exact rational. -/
structure SubjectStats where
  attended : Nat
  absences : Nat
  cancelled : Nat
  total : Nat
  absenceRate : ℚ
deriving DecidableEq, Repr

/-- Model of `calculateSubjectBreakdown` from `src/worker/stats.ts`.  The
`Record<string, SubjectStats>` is represented as the partial map from a
subject name to its statistics; a name occurs iff some ledger entry carries
it, and the four counters replay the source loop (each entry increments
`total` and exactly one of `cancelled` / `absences` / `attended`). -/
def calculateSubjectBreakdown (lessons : List ProcessedLesson) (s : String) : Option SubjectStats :=
  if lessons.any fun l => l.subject == s then
    let total := (lessons.filter fun l => l.subject == s).length
    let cancelled := (lessons.filter fun l => l.subject == s && l.isCancelled).length
    let absences := (lessons.filter fun l => l.subject == s && !l.isCancelled && l.isAbsent).length
    let attended := (lessons.filter fun l => l.subject == s && !l.isCancelled && !l.isAbsent).length
    let totalLessons := total - cancelled
    some { attended := attended
           absences := absences
           cancelled := cancelled
           total := total
           absenceRate := if 0 < totalLessons then ratePercent2 absences totalLessons else 0 }
  else none

/-- Point of the 30-day cumulative series (`DailyTrendPoint` in
`src/worker/types.ts`). -/
structure DailyTrendPoint where
  date : String
  absenceRate : ℚ
  totalLessons : Nat
  absences : Nat
deriving DecidableEq, Repr

/-- Non-cancelled lesson count of one ledger date (the `total` field of the
`allDailyData` bucket in `calculateDailyTrend`). -/
def dayBucketTotal (lessons : List ProcessedLesson) (ds : String) : Nat :=
  (lessons.filter fun l => l.date == ds && !l.isCancelled).length

/-- Absence count of one ledger date (the `absences` field of the
`allDailyData` bucket). -/
def dayBucketAbsences (lessons : List ProcessedLesson) (ds : String) : Nat :=
  (lessons.filter fun l => l.date == ds && !l.isCancelled && l.isAbsent).length

/-- Keys of the `allDailyData` map: each distinct ledger date (a date whose
lessons are all cancelled still gets a bucket). -/
def ledgerDates (lessons : List ProcessedLesson) : List String :=
  (lessons.map fun l => l.date).dedup

/-- The `allDates` array: the distinct ledger dates sorted lexicographically
(JavaScript default string sort; the keys are distinct, so any correct sort
produces the same list). -/
def sortedDates (lessons : List ProcessedLesson) : List String :=
  (ledgerDates lessons).mergeSort fun a b => !decide (b < a)

/-- Walk of the sorted dates accumulating `(cumulativeAbsences,
cumulativeRealLessons)` and recording the running pair at each date. -/
def cumulWalk (lessons : List ProcessedLesson) : List String → Nat → Nat → List (String × Nat × Nat)
  | [], _, _ => []
  | ds :: rest, ca, cr =>
    let ca2 := ca + dayBucketAbsences lessons ds
    let cr2 := cr + dayBucketTotal lessons ds
    (ds, ca2, cr2) :: cumulWalk lessons rest ca2 cr2

/-- The `cumulativeData` map of `calculateDailyTrend`. -/
def cumulativeData (lessons : List ProcessedLesson) : List (String × Nat × Nat) :=
  cumulWalk lessons (sortedDates lessons) 0 0

/-- Lookup in the `cumulativeData` map. -/
def cumulLookup (lessons : List ProcessedLesson) (ds : String) : Option (Nat × Nat) :=
  (cumulativeData lessons).lookup ds

/-- All-zero trend point for a date. -/
def emptyTrendPoint (ds : String) : DailyTrendPoint :=
  { date := ds, absenceRate := 0, totalLessons := 0, absences := 0 }

/-- The 30 output dates, oldest first: offsets 29 down to 0 relative to
`today`; `date.toISOString().split('T')[0]` of a calendar day-code is its
dashed 8-digit form, i.e. `formatUntisDate` (the engine is modelled at UTC,
where the local calendar used by `setDate` and the UTC calendar used by
`toISOString` agree). -/
def trendDates (today : Nat) : List String :=
  (List.range 30).map fun j => formatUntisDate (subDays today (29 - j))

/-- One iteration of the 30-day output loop of `calculateDailyTrend`:
emit the recorded cumulative pair for the date if present, otherwise carry
the last emitted point forward (with the current date), otherwise a zero
point. -/
def trendStep (lessons : List ProcessedLesson) (acc : List DailyTrendPoint) (ds : String) : List DailyTrendPoint :=
  match cumulLookup lessons ds with
  | some (ca, cr) =>
    acc ++ [{ date := ds
              absenceRate := if 0 < cr then ratePercent2 ca cr else 0
              totalLessons := cr
              absences := ca }]
  | none =>
    match acc.getLast? with
    | some p => acc ++ [{ p with date := ds }]
    | none => acc ++ [emptyTrendPoint ds]

/-- Model of `calculateDailyTrend` from `src/worker/stats.ts`; `today` is
the ambient `new Date()` day-code.  The source returns an explicit
30-zero-point array when there are no dates at all, and otherwise walks the
30 dates pushing per the carry-forward rule. -/
def calculateDailyTrend (lessons : List ProcessedLesson) (today : Nat) : List DailyTrendPoint :=
  if (ledgerDates lessons).isEmpty then (trendDates today).map emptyTrendPoint
  else (trendDates today).foldl (trendStep lessons) []

/-- The full snapshot (`UserStatsData` in `src/worker/types.ts`). -/
structure UserStatsData where
  absenceCounts : AbsenceCounts
  trendChanges : TrendChanges
  subjectBreakdown : String → Option SubjectStats
  dailyTrend : List DailyTrendPoint
  lastUpdated : String
  absenceRate : ℚ
  totalRealLessons : Nat
  totalAbsences : Nat

/-- Model of `calculateStats` from `src/worker/stats.ts`.  The source reads
the clock implicitly (`new Date()` inside the aggregators and
`new Date().toISOString()` for `lastUpdated`); the ambient clock is passed
here explicitly as the day-code `today` plus the ISO timestamp `nowISO`,
which is the only way an implicit clock read can appear in a pure model. -/
def calculateStats (timetable : List Lesson) (absences : List Absence) (today : Nat) (nowISO : String) : UserStatsData :=
  let pl := processLessonData timetable absences
  let ac := calculateAbsenceCounts pl today
  let trl := (pl.filter fun l => !l.isCancelled).length
  let ta := ac.allTime
  { absenceCounts := ac
    trendChanges := calculateTrendChanges pl today
    subjectBreakdown := calculateSubjectBreakdown pl
    dailyTrend := calculateDailyTrend pl today
    lastUpdated := nowISO
    absenceRate := if 0 < trl then ratePercent2 ta trl else 0
    totalRealLessons := trl
    totalAbsences := ta }

/-- Formalisation of claim C1's interval description, word for word: the
day that is both first and last gets "the absence's exact
[startTime, endTime]" (a missing time falls back to the full-day bound),
the first day gets [startTime, end-of-day], the last day
[start-of-day, endTime], interior days the full-day interval. -/
def claimIntervalFor (a : Absence) (sd ed day : Nat) : Nat × Nat :=
  if day = sd ∧ day = ed then (a.startTime.getD 0, a.endTime.getD 2359)
  else if day = sd then (a.startTime.getD 0, 2359)
  else if day = ed then (0, a.endTime.getD 2359)
  else (0, 2359)

/-- The calendar days covered by an absence period: the successive
`incrementUntisDate` iterates of the start day while they remain at most
the end day (the walk of the source's expansion loop; the bound
`ed + 1 - sd` covers every iteration, since each step strictly increases a
valid day-code). -/
def coveredDays (sd ed : Nat) : List Nat :=
  ((List.range (ed + 1 - sd)).map fun k => iterInc k sd).takeWhile fun day => decide (day ≤ ed)

/-- Formalisation of claim C1's absence test for one lesson: some absence,
expanded onto the lesson's date with `claimIntervalFor`, yields an interval
overlapping the lesson's time range under
`lessonStart < intervalEnd AND lessonEnd > intervalStart`. -/
def claimAbsent (absences : List Absence) (l : Lesson) : Bool :=
  let ds := formatUntisDate (l.date.getD 0)
  let lessonStart := l.startTime.getD 0
  let lessonEnd := l.endTime.getD 2359
  absences.any fun a =>
    match a.startDate with
    | none => false
    | some sd =>
      let ed := a.endDate.getD sd
      (coveredDays sd ed).any fun day =>
        decide (formatUntisDate day = ds) &&
          decide (lessonStart < (claimIntervalFor a sd ed day).2) &&
          decide ((claimIntervalFor a sd ed day).1 < lessonEnd)

/-- The amended per-lesson reconciliation of claim C1: as the claim, but
with the source's JavaScript defaults — a lesson with a missing or zero
date is skipped, time fields default under `||` (so a present `endTime` of
`0` becomes 2359), and the expanded intervals are `absenceIntervalFor`. -/
def amendedEntry (absences : List Absence) (l : Lesson) : Option ProcessedLesson :=
  match l.date with
  | none => none
  | some d =>
    if d = 0 then none
    else
      let ds := formatUntisDate d
      let isC := l.code = some "cancelled"
      let isA := !decide isC && absences.any fun a =>
        match a.startDate with
        | none => false
        | some sd =>
          decide (sd ≠ 0) &&
            ((coveredDays sd (jsOrNat a.endDate sd)).any fun day =>
              decide (formatUntisDate day = ds) &&
                (decide (jsOrNat l.startTime 0 < (absenceIntervalFor a sd (jsOrNat a.endDate sd) day).2) &&
                 decide ((absenceIntervalFor a sd (jsOrNat a.endDate sd) day).1 < jsOrNat l.endTime 2359)))
      some { date := ds, subject := lessonSubject l, isCancelled := decide isC, isAbsent := isA }

/-- Count of absent entries with a parsed date inside the inclusive window
from `a` days ago up to `b` days ago (used to formalise the claims'
`[today − a, today − b]` windows). -/
def claimWindowCount (lessons : List ProcessedLesson) (today a b : Nat) : Nat :=
  (lessons.filter fun l =>
    (match parseISODate l.date with
     | some c => decide (subDays today a ≤ c) && decide (c ≤ subDays today b)
     | none => false) && l.isAbsent).length

/-- Formalisation of claim C3's absence counts: each window is the
inclusive `[today − W, today]`, all-time is the full absent count. -/
def claimAbsenceCounts (lessons : List ProcessedLesson) (today : Nat) : AbsenceCounts :=
  { last7Days := claimWindowCount lessons today 7 0
    last14Days := claimWindowCount lessons today 14 0
    last30Days := claimWindowCount lessons today 30 0
    allTime := (lessons.filter fun l => l.isAbsent).length }

/-- Formalisation of claim C2's trend for window size `w`: current count in
`[today − w, today]`, previous count in `[today − 2w + 1, today − w − 1]`,
same percent/direction formula as the engine. -/
def claimTrendFor (lessons : List ProcessedLesson) (today w : Nat) : TrendData :=
  calculateTrendData (claimWindowCount lessons today w 0)
    (claimWindowCount lessons today (2 * w - 1) (w + 1))

/-- Claim C2's value of `calculateTrendChanges`. -/
def claimTrendChanges (lessons : List ProcessedLesson) (today : Nat) : TrendChanges :=
  { last7Days := claimTrendFor lessons today 7
    last14Days := claimTrendFor lessons today 14
    last30Days := claimTrendFor lessons today 30 }

/-- The amended trend of claim C2 for window size `w`: current window
`(today − w, today]` (`w` days), previous window `(today − 2w, today − w − 1]`
(`w − 1` days), the day `today − w` in neither. -/
def amendedTrendFor (lessons : List ProcessedLesson) (today w : Nat) : TrendData :=
  calculateTrendData (countAbsencesInRange lessons today 0 w)
    (countAbsencesInRange lessons today (w + 1) (2 * w))

/-- The amended counts of claim C3: each window has no upper bound
(`date ≥ today − W`), all-time is the full absent count. -/
def amendedWindowCount (lessons : List ProcessedLesson) (today w : Nat) : Nat :=
  (lessons.filter fun l =>
    (match parseISODate l.date with
     | some c => decide (subDays today w ≤ c)
     | none => false) && l.isAbsent).length

/-- The point the 30-day output loop of `calculateDailyTrend` emits for
date `ds` when the previously emitted point is `prev`: the recorded
cumulative pair if the date has one, otherwise the carried-forward previous
point with the current date, otherwise a zero point. -/
def trendPointFor (lessons : List ProcessedLesson) (prev : Option DailyTrendPoint) (ds : String) : DailyTrendPoint :=
  match cumulLookup lessons ds with
  | some (ca, cr) =>
    { date := ds
      absenceRate := if 0 < cr then ratePercent2 ca cr else 0
      totalLessons := cr
      absences := ca }
  | none =>
    match prev with
    | some p => { p with date := ds }
    | none => emptyTrendPoint ds

/-- Reference form of the 30-point output loop of `calculateDailyTrend`,
carrying the previous emitted point explicitly (used to reason about the
`foldl`). -/
def buildTrend (lessons : List ProcessedLesson) (prev : Option DailyTrendPoint) : List String → List DailyTrendPoint
  | [] => []
  | ds :: rest =>
    trendPointFor lessons prev ds :: buildTrend lessons (some (trendPointFor lessons prev ds)) rest

/-- Validity of a day-code: an 8-or-fewer-digit number whose fixed-width
components denote a real calendar date (year at least 1). -/
def validDayCode (n : Nat) : Prop :=
  n < 100000000 ∧ 1 ≤ decodeYear n ∧ decodeYear n ≤ 9999 ∧
    1 ≤ decodeMonth n ∧ decodeMonth n ≤ 12 ∧
    1 ≤ decodeDay n ∧ decodeDay n ≤ daysInMonth (decodeYear n) (decodeMonth n)

/-- The year-1900 adjustment JavaScript `Date` applies to two-digit years. -/
def jsAdjustYear (y : Nat) : Nat := if y < 100 then 1900 + y else y

theorem numDigitsAux_le (fuel : Nat) : ∀ n k, n ≤ fuel → 1 ≤ k → n < 10 ^ k → numDigitsAux fuel n ≤ k := by
  induction fuel with
  | zero =>
    intro n k _ hk _
    simpa [numDigitsAux] using hk
  | succ fuel ih =>
    intro n k hn hk hpow
    by_cases h10 : n < 10
    · simpa [numDigitsAux, h10] using hk
    · have hk2 : 2 ≤ k := by
        rcases Nat.lt_or_ge k 2 with hlt | hge
        · interval_cases k
          · omega
        · exact hge
      have hdivfuel : n / 10 ≤ fuel := by
        have : n / 10 < n := Nat.div_lt_self (by omega) (by omega)
        omega
      have hdivpow : n / 10 < 10 ^ (k - 1) := by
        have h1 : n < 10 * 10 ^ (k - 1) := by
          have : 10 ^ k = 10 ^ (k - 1) * 10 := by
            have hk1 : k - 1 + 1 = k := by omega
            calc 10 ^ k = 10 ^ (k - 1 + 1) := by rw [hk1]
            _ = 10 ^ (k - 1) * 10 := by rw [pow_succ]
          omega
        exact Nat.div_lt_of_lt_mul h1
      have := ih (n / 10) (k - 1) hdivfuel (by omega) hdivpow
      simp only [numDigitsAux, if_neg h10]
      omega

theorem numDigits_le_eight (n : Nat) (h : n < 100000000) : numDigits n ≤ 8 :=
  numDigitsAux_le n n 8 (le_refl n) (by omega) (by norm_num; omega)

theorem padLen_eq_eight (n : Nat) (h : n < 100000000) : padLen n = 8 := by
  have := numDigits_le_eight n h
  unfold padLen
  omega

theorem decodeYear_eq (n : Nat) (h : n < 100000000) : decodeYear n = n / 10000 := by
  unfold decodeYear
  rw [padLen_eq_eight n h]
  norm_num

theorem decodeMonth_eq (n : Nat) (h : n < 100000000) : decodeMonth n = n / 100 % 100 := by
  unfold decodeMonth
  rw [padLen_eq_eight n h]
  norm_num

theorem decodeDay_eq (n : Nat) (h : n < 100000000) : decodeDay n = n % 100 := by
  unfold decodeDay
  rw [padLen_eq_eight n h]
  simp

theorem encode_lt (y m d : Nat) (hy : y ≤ 9999) (hm : m ≤ 99) (hd : d ≤ 99) :
    encodeYMD (y, m, d) < 100000000 := by
  simp only [encodeYMD]
  omega

theorem decode_encode (y m d : Nat) (hy : y ≤ 9999) (hm : m ≤ 99) (hd : d ≤ 99) :
    decodeYear (encodeYMD (y, m, d)) = y ∧
    decodeMonth (encodeYMD (y, m, d)) = m ∧
    decodeDay (encodeYMD (y, m, d)) = d := by
  have hlt := encode_lt y m d hy hm hd
  rw [decodeYear_eq _ hlt, decodeMonth_eq _ hlt, decodeDay_eq _ hlt]
  simp only [encodeYMD]
  omega

theorem decode_recompose (n : Nat) (h : n < 100000000) :
    encodeYMD (decodeYear n, decodeMonth n, decodeDay n) = n := by
  rw [decodeYear_eq _ h, decodeMonth_eq _ h, decodeDay_eq _ h]
  simp only [encodeYMD]
  omega

theorem daysInMonth_bounds (y m : Nat) : 28 ≤ daysInMonth y m ∧ daysInMonth y m ≤ 31 := by
  unfold daysInMonth
  split
  · split <;> omega
  · split <;> omega

theorem isLeapYear_1900 (y : Nat) (h1 : 1 ≤ y) (h2 : y ≤ 99) :
    isLeapYear (1900 + y) = isLeapYear y := by
  unfold isLeapYear
  have e4 : (1900 + y) % 4 = y % 4 := by omega
  have e100 : (1900 + y) % 100 = y := by omega
  have e100b : y % 100 = y := by omega
  have e400 : (1900 + y) % 400 ≠ 0 := by omega
  have e400b : y % 400 = y := by omega
  rw [e4, e100, e100b, e400b]
  have hne : (decide (y ≠ 0) : Bool) = true := by simp; omega
  have hne2 : ((1900 + y) % 400 == 0) = false := by simp [e400]
  have hne3 : (y == 0) = false := by simp; omega
  simp [hne2, hne3]

theorem daysInMonth_1900 (y m : Nat) (h1 : 1 ≤ y) (h2 : y ≤ 99) :
    daysInMonth (1900 + y) m = daysInMonth y m := by
  unfold daysInMonth
  rw [isLeapYear_1900 y h1 h2]

theorem monthNormalize_id (y m : Nat) (h1 : 1 ≤ m) (h2 : m ≤ 12) :
    monthNormalize y m = (y, m) := by
  unfold monthNormalize
  rw [if_neg (by omega)]
  have hdiv : (m - 1) / 12 = 0 := Nat.div_eq_of_lt (by omega)
  have hmod : (m - 1) % 12 = m - 1 := Nat.mod_eq_of_lt (by omega)
  rw [hdiv, hmod]
  simp
  omega

theorem dayNormalize_id (y m d : Nat) (h1 : 1 ≤ d) (h2 : d ≤ daysInMonth y m) :
    dayNormalize y m d = (y, m, d) := by
  unfold dayNormalize dayCarry
  rw [if_neg (by omega), if_pos h2]

theorem nextDayT_eq (y m d : Nat) :
    nextDayT (y, m, d) =
      if d < daysInMonth y m then (y, m, d + 1)
      else if m < 12 then (y, m + 1, 1)
      else (y + 1, 1, 1) := rfl

theorem encode_nextDayT_gt (y m d : Nat) (hm2 : m ≤ 12) (hd2 : d ≤ daysInMonth y m) :
    encodeYMD (y, m, d) < encodeYMD (nextDayT (y, m, d)) := by
  have hb := daysInMonth_bounds y m
  rw [nextDayT_eq]
  by_cases h1 : d < daysInMonth y m
  · rw [if_pos h1]
    simp only [encodeYMD]
    omega
  · rw [if_neg h1]
    by_cases h2 : m < 12
    · rw [if_pos h2]
      simp only [encodeYMD]
      omega
    · rw [if_neg h2]
      simp only [encodeYMD]
      omega

theorem encode_nextDayT_year_le (y m d : Nat) :
    y * 10000 ≤ encodeYMD (nextDayT (y, m, d)) := by
  rw [nextDayT_eq]
  by_cases h1 : d < daysInMonth y m
  · rw [if_pos h1]
    simp only [encodeYMD]
    omega
  · rw [if_neg h1]
    by_cases h2 : m < 12
    · rw [if_pos h2]
      simp only [encodeYMD]
      omega
    · rw [if_neg h2]
      simp only [encodeYMD]
      omega

/-- On a valid day-code, `incrementUntisDate` is `encode ∘ nextDay` applied
to the decoded components (with the 1900 adjustment for two-digit years). -/
theorem incrementUntisDate_char (n : Nat) (h : validDayCode n) :
    incrementUntisDate n =
      encodeYMD (nextDayT (jsAdjustYear (decodeYear n), decodeMonth n, decodeDay n)) := by
  obtain ⟨hlt, hy1, hy2, hm1, hm2, hd1, hd2⟩ := h
  have hdim : daysInMonth (jsAdjustYear (decodeYear n)) (decodeMonth n) = daysInMonth (decodeYear n) (decodeMonth n) := by
    unfold jsAdjustYear
    split
    · exact daysInMonth_1900 _ _ hy1 (by omega)
    · rfl
  show encodeYMD (nextDayT (dayNormalize
      (monthNormalize (jsAdjustYear (decodeYear n)) (decodeMonth n)).1
      (monthNormalize (jsAdjustYear (decodeYear n)) (decodeMonth n)).2
      (decodeDay n))) = _
  rw [monthNormalize_id _ _ hm1 hm2]
  rw [dayNormalize_id _ _ _ hd1 (by rw [hdim]; exact hd2)]

/-- The absence-expansion step strictly increases every valid day-code. -/
theorem incrementUntisDate_gt (n : Nat) (h : validDayCode n) : n < incrementUntisDate n := by
  have hc := incrementUntisDate_char n h
  obtain ⟨hlt, hy1, hy2, hm1, hm2, hd1, hd2⟩ := h
  have hrec : encodeYMD (decodeYear n, decodeMonth n, decodeDay n) = n := decode_recompose n hlt
  rw [hc]
  have hb := daysInMonth_bounds (decodeYear n) (decodeMonth n)
  by_cases hsmall : decodeYear n < 100
  · have hn6 : n < 1000000 := by
      simp only [encodeYMD] at hrec
      omega
    have hadj : jsAdjustYear (decodeYear n) = 1900 + decodeYear n := by
      unfold jsAdjustYear
      rw [if_pos hsmall]
    rw [hadj]
    have hyear := encode_nextDayT_year_le (1900 + decodeYear n) (decodeMonth n) (decodeDay n)
    omega
  · have hadj : jsAdjustYear (decodeYear n) = decodeYear n := by
      unfold jsAdjustYear
      rw [if_neg hsmall]
    rw [hadj]
    have hstep := encode_nextDayT_gt (decodeYear n) (decodeMonth n) (decodeDay n) hm2 hd2
    omega

theorem nextDayT_bounds (y m d : Nat) (hy1 : 1 ≤ y) (hm1 : 1 ≤ m) (hm2 : m ≤ 12)
    (hd1 : 1 ≤ d) (hd2 : d ≤ daysInMonth y m) :
    1 ≤ (nextDayT (y, m, d)).1 ∧ 1 ≤ (nextDayT (y, m, d)).2.1 ∧ (nextDayT (y, m, d)).2.1 ≤ 12 ∧
      1 ≤ (nextDayT (y, m, d)).2.2 ∧
      (nextDayT (y, m, d)).2.2 ≤ daysInMonth (nextDayT (y, m, d)).1 (nextDayT (y, m, d)).2.1 ∧
      y ≤ (nextDayT (y, m, d)).1 ∧ (nextDayT (y, m, d)).1 ≤ y + 1 := by
  rw [nextDayT_eq]
  by_cases h1 : d < daysInMonth y m
  · rw [if_pos h1]
    simp only
    have := daysInMonth_bounds y m
    omega
  · rw [if_neg h1]
    by_cases h2 : m < 12
    · rw [if_pos h2]
      simp only
      have := daysInMonth_bounds y (m + 1)
      omega
    · rw [if_neg h2]
      simp only
      have := daysInMonth_bounds (y + 1) 1
      omega

/-- After one increment a valid day-code either stays a valid day-code or
leaves the 8-digit range for good reason (the year rolled past 9999). -/
theorem incrementUntisDate_valid_or_big (n : Nat) (h : validDayCode n) :
    validDayCode (incrementUntisDate n) ∨ 99999999 < incrementUntisDate n := by
  have hc := incrementUntisDate_char n h
  obtain ⟨hlt, hy1, hy2, hm1, hm2, hd1, hd2⟩ := h
  have hdim : daysInMonth (jsAdjustYear (decodeYear n)) (decodeMonth n) = daysInMonth (decodeYear n) (decodeMonth n) := by
    unfold jsAdjustYear
    split
    · exact daysInMonth_1900 _ _ hy1 (by omega)
    · rfl
  have hadj1 : 1 ≤ jsAdjustYear (decodeYear n) := by
    unfold jsAdjustYear
    split <;> omega
  have hadj2 : jsAdjustYear (decodeYear n) ≤ 9999 := by
    unfold jsAdjustYear
    split <;> omega
  have hb := nextDayT_bounds (jsAdjustYear (decodeYear n)) (decodeMonth n) (decodeDay n)
    hadj1 hm1 hm2 hd1 (by rw [hdim]; exact hd2)
  set t := nextDayT (jsAdjustYear (decodeYear n), decodeMonth n, decodeDay n) with ht
  obtain ⟨hb1, hb2, hb3, hb4, hb5, hb6, hb7⟩ := hb
  by_cases hy : t.1 ≤ 9999
  · left
    have htup : t = (t.1, t.2.1, t.2.2) := rfl
    have hdb := daysInMonth_bounds t.1 t.2.1
    have hdec := decode_encode t.1 t.2.1 t.2.2 hy (by omega) (by omega)
    have henc : encodeYMD (t.1, t.2.1, t.2.2) = encodeYMD t := by rw [← htup]
    rw [hc, ← htup] at *
    obtain ⟨he1, he2, he3⟩ := hdec
    rw [henc] at he1 he2 he3
    refine ⟨?_, ?_, ?_, ?_, ?_, ?_, ?_⟩
    · have := encode_lt t.1 t.2.1 t.2.2 hy (by omega) (by omega)
      rw [henc] at this
      exact this
    · rw [he1]; exact hb1
    · rw [he1]; exact hy
    · rw [he2]; exact hb2
    · rw [he2]; exact hb3
    · rw [he3]; exact hb4
    · rw [he1, he2, he3]; exact hb5
  · right
    rw [hc]
    have htup : t = (t.1, t.2.1, t.2.2) := rfl
    have : encodeYMD (t.1, t.2.1, t.2.2) = t.1 * 10000 + t.2.1 * 100 + t.2.2 := rfl
    rw [← htup] at this
    omega

/-- From a valid start the running date of the expansion loop eventually
exceeds any end bound of at most 8 digits. -/
theorem iterInc_exceeds_aux : ∀ fuel sd ed, validDayCode sd → ed ≤ 99999999 →
    ed + 1 - sd ≤ fuel → ∃ k, ed < iterInc k sd := by
  intro fuel
  induction fuel with
  | zero =>
    intro sd ed _ _ hfuel
    exact ⟨0, by simp only [iterInc]; omega⟩
  | succ fuel ih =>
    intro sd ed hv hed hfuel
    by_cases hlt : ed < sd
    · exact ⟨0, by simp only [iterInc]; omega⟩
    · have hgt := incrementUntisDate_gt sd hv
      rcases incrementUntisDate_valid_or_big sd hv with hvnext | hbig
      · obtain ⟨k, hk⟩ := ih (incrementUntisDate sd) ed hvnext hed (by omega)
        exact ⟨k + 1, by simpa only [iterInc] using hk⟩
      · exact ⟨1, by simp only [iterInc]; omega⟩

/-- Along a prefix of the expansion walk that stays at most `ed ≤ 99999999`,
every visited day-code is valid and the walk has advanced at least one per
step. -/
theorem iterInc_prefix_valid : ∀ k sd ed, validDayCode sd → ed ≤ 99999999 →
    (∀ j, j ≤ k → iterInc j sd ≤ ed) → validDayCode (iterInc k sd) ∧ sd + k ≤ iterInc k sd := by
  intro k
  induction k with
  | zero =>
    intro sd ed hv _ _
    exact ⟨hv, by simp only [iterInc]; omega⟩
  | succ k ih =>
    intro sd ed hv hed hpre
    have hgt := incrementUntisDate_gt sd hv
    have hvnext : validDayCode (incrementUntisDate sd) := by
      rcases incrementUntisDate_valid_or_big sd hv with hvn | hbig
      · exact hvn
      · have h1 := hpre 1 (by omega)
        have : iterInc 1 sd = incrementUntisDate sd := by simp only [iterInc]
        omega
    have hpre2 : ∀ j, j ≤ k → iterInc j (incrementUntisDate sd) ≤ ed := by
      intro j hj
      have := hpre (j + 1) (by omega)
      simpa only [iterInc] using this
    obtain ⟨hvk, hadv⟩ := ih (incrementUntisDate sd) ed hvnext hed hpre2
    constructor
    · simpa only [iterInc] using hvk
    · have : iterInc (k + 1) sd = iterInc k (incrementUntisDate sd) := by simp only [iterInc]
      omega

theorem prevDayT_eq (y m d : Nat) :
    prevDayT (y, m, d) =
      if 2 ≤ d then (y, m, d - 1)
      else if 2 ≤ m then (y, m - 1, daysInMonth y (m - 1))
      else (y - 1, 12, 31) := rfl

theorem daysInMonth_twelve (y : Nat) : daysInMonth y 12 = 31 := rfl

/-- Stepping one day back from a valid date (with year at least 2) stays
valid, strictly decreases the code, and lowers the year by at most one. -/
theorem prevDayCode_lt (n : Nat) (h : validDayCode n) (hy : 2 ≤ decodeYear n) :
    validDayCode (prevDayCode n) ∧ prevDayCode n < n ∧ decodeYear n ≤ decodeYear (prevDayCode n) + 1 := by
  obtain ⟨hlt, hy1, hy2, hm1, hm2, hd1, hd2⟩ := h
  have hrec : encodeYMD (decodeYear n, decodeMonth n, decodeDay n) = n := decode_recompose n hlt
  have hdb := daysInMonth_bounds (decodeYear n) (decodeMonth n)
  unfold prevDayCode
  rw [prevDayT_eq]
  by_cases h1 : 2 ≤ decodeDay n
  · rw [if_pos h1]
    have hdec := decode_encode (decodeYear n) (decodeMonth n) (decodeDay n - 1) hy2 (by omega) (by omega)
    obtain ⟨he1, he2, he3⟩ := hdec
    have henc : encodeYMD (decodeYear n, decodeMonth n, decodeDay n - 1) < 100000000 :=
      encode_lt _ _ _ hy2 (by omega) (by omega)
    refine ⟨⟨henc, ?_, ?_, ?_, ?_, ?_, ?_⟩, ?_, ?_⟩
    · rw [he1]; omega
    · rw [he1]; omega
    · rw [he2]; omega
    · rw [he2]; omega
    · rw [he3]; omega
    · rw [he1, he2, he3]; omega
    · simp only [encodeYMD] at hrec ⊢; omega
    · rw [he1]; omega
  · rw [if_neg h1]
    by_cases h2 : 2 ≤ decodeMonth n
    · rw [if_pos h2]
      have hdb2 := daysInMonth_bounds (decodeYear n) (decodeMonth n - 1)
      have hdec := decode_encode (decodeYear n) (decodeMonth n - 1) (daysInMonth (decodeYear n) (decodeMonth n - 1)) hy2 (by omega) (by omega)
      obtain ⟨he1, he2, he3⟩ := hdec
      have henc : encodeYMD (decodeYear n, decodeMonth n - 1, daysInMonth (decodeYear n) (decodeMonth n - 1)) < 100000000 :=
        encode_lt _ _ _ hy2 (by omega) (by omega)
      refine ⟨⟨henc, ?_, ?_, ?_, ?_, ?_, ?_⟩, ?_, ?_⟩
      · rw [he1]; omega
      · rw [he1]; omega
      · rw [he2]; omega
      · rw [he2]; omega
      · rw [he3]; omega
      · rw [he1, he2, he3]
      · simp only [encodeYMD] at hrec ⊢; omega
      · rw [he1]; omega
    · rw [if_neg h2]
      have hdb2 : daysInMonth (decodeYear n - 1) 12 = 31 := daysInMonth_twelve _
      have hdec := decode_encode (decodeYear n - 1) 12 31 (by omega) (by omega) (by omega)
      obtain ⟨he1, he2, he3⟩ := hdec
      have henc : encodeYMD (decodeYear n - 1, 12, 31) < 100000000 :=
        encode_lt _ _ _ (by omega) (by omega) (by omega)
      refine ⟨⟨henc, ?_, ?_, ?_, ?_, ?_, ?_⟩, ?_, ?_⟩
      · rw [he1]; omega
      · rw [he1]; omega
      · rw [he2]; omega
      · rw [he2]
      · rw [he3]; omega
      · rw [he1, he2, he3, hdb2]
      · simp only [encodeYMD] at hrec ⊢; omega
      · rw [he1]; omega

/-- Walking `i` days back from a valid date with year beyond `i` stays
valid, does not increase the code, and lowers the year by at most `i`. -/
theorem subDays_valid : ∀ i n, validDayCode n → i + 1 ≤ decodeYear n →
    validDayCode (subDays n i) ∧ subDays n i ≤ n ∧ decodeYear n ≤ decodeYear (subDays n i) + i := by
  intro i
  induction i with
  | zero =>
    intro n hv _
    exact ⟨hv, Nat.le_refl n, by show decodeYear n ≤ decodeYear n + 0; omega⟩
  | succ i ih =>
    intro n hv hy
    obtain ⟨hvk, hle, hyk⟩ := ih n hv (by omega)
    have hstep := prevDayCode_lt (subDays n i) hvk (by omega)
    obtain ⟨hv2, hlt2, hy2⟩ := hstep
    have he : subDays n (i + 1) = prevDayCode (subDays n i) := rfl
    refine ⟨?_, ?_, ?_⟩
    · rw [he]; exact hv2
    · rw [he]; omega
    · rw [he]; omega

theorem subDays_add (n : Nat) : ∀ i j, subDays n (i + j) = subDays (subDays n i) j := by
  intro i j
  induction j with
  | zero => rfl
  | succ j ih =>
    have h1 : i + (j + 1) = (i + j) + 1 := by omega
    rw [h1]
    have h2 : subDays n ((i + j) + 1) = prevDayCode (subDays n (i + j)) := rfl
    have h3 : subDays (subDays n i) (j + 1) = prevDayCode (subDays (subDays n i) j) := rfl
    rw [h2, h3, ih]

/-- Taking more days back yields an earlier (or equal) day-code, as long as
the year stays positive along the walk. -/
theorem subDays_mono (n : Nat) (h : validDayCode n) (i j : Nat) (hij : i ≤ j)
    (hj : j + 1 ≤ decodeYear n) : subDays n j ≤ subDays n i := by
  obtain ⟨hvi, hlei, hyi⟩ := subDays_valid i n h (by omega)
  have hsplit : subDays n j = subDays (subDays n i) (j - i) := by
    have h2 : i + (j - i) = j := by omega
    calc subDays n j = subDays n (i + (j - i)) := by rw [h2]
    _ = subDays (subDays n i) (j - i) := subDays_add n i (j - i)
  obtain ⟨_, hle2, _⟩ := subDays_valid (j - i) (subDays n i) hvi (by omega)
  omega

theorem iterInc_succ (k n : Nat) : iterInc (k + 1) n = iterInc k (incrementUntisDate n) := rfl

/-- The fuelled expansion loop walks the first `fuel` iterates of the
running date and stops at the first one exceeding the end date. -/
theorem expandFrom_eq (a : Absence) (sd ed : Nat) :
    ∀ fuel cur, expandFrom a sd ed fuel cur =
      (((List.range fuel).map fun k => iterInc k cur).takeWhile fun day => decide (day ≤ ed)).map
        fun day => (day, absenceIntervalFor a sd ed day) := by
  intro fuel
  induction fuel with
  | zero => intro cur; rfl
  | succ fuel ih =>
    intro cur
    rw [List.range_succ_eq_map]
    simp only [List.map_cons, List.map_map]
    have h0 : iterInc 0 cur = cur := rfl
    rw [h0]
    have hcomp : ((fun k => iterInc k cur) ∘ Nat.succ) = fun k => iterInc k (incrementUntisDate cur) := by
      funext k
      rfl
    rw [hcomp]
    rw [List.takeWhile_cons]
    by_cases hc : cur ≤ ed
    · have hl : expandFrom a sd ed (fuel + 1) cur =
          (cur, absenceIntervalFor a sd ed cur) :: expandFrom a sd ed fuel (incrementUntisDate cur) := by
        simp only [expandFrom, if_pos hc]
      rw [hl, ih (incrementUntisDate cur)]
      rw [if_pos (by simpa using hc)]
      simp only [List.map_cons]
    · have hl : expandFrom a sd ed (fuel + 1) cur = [] := by
        simp only [expandFrom, if_neg hc]
      rw [hl]
      rw [if_neg (by simpa using hc)]
      simp only [List.map_nil]

/-- The expanded days of an absence with a truthy start are exactly its
covered days, each paired with its position-dependent interval. -/
theorem expandAbsence_eq (a : Absence) (sd : Nat) (hsd : a.startDate = some sd) (h0 : sd ≠ 0) :
    expandAbsence a = (coveredDays sd (jsOrNat a.endDate sd)).map
      fun day => (day, absenceIntervalFor a sd (jsOrNat a.endDate sd) day) := by
  unfold expandAbsence coveredDays
  rw [hsd]
  simp only [if_neg h0]
  exact expandFrom_eq a sd (jsOrNat a.endDate sd) (jsOrNat a.endDate sd + 1 - sd) sd

theorem any_flatMap {α β : Type} (l : List α) (g : α → List β) (p : β → Bool) :
    ((l.flatMap g).any p) = l.any fun a => (g a).any p := by
  induction l with
  | nil => rfl
  | cons x xs ih => simp [List.flatMap_cons, List.any_append, ih]

theorem filterMap_if_any_over_map (days : List Nat) (iv : Nat → Nat × Nat) (ds : String)
    (p : Nat × Nat → Bool) :
    ((days.map fun day => (day, iv day)).filterMap
        (fun t => if formatUntisDate t.1 = ds then some t.2 else none)).any p =
      days.any fun day => decide (formatUntisDate day = ds) && p (iv day) := by
  induction days with
  | nil => rfl
  | cons x xs ih =>
    simp only [List.map_cons, List.filterMap_cons]
    by_cases hc : formatUntisDate x = ds
    · rw [if_pos hc]
      simp only [List.any_cons, ih]
      have htrue : (decide (formatUntisDate x = ds)) = true := by simp [hc]
      rw [htrue, Bool.true_and]
    · rw [if_neg hc, ih]
      simp only [List.any_cons]
      have hfalse : (decide (formatUntisDate x = ds)) = false := by simp [hc]
      rw [hfalse, Bool.false_and, Bool.false_or]

/-- Per-absence form of the reconciler's interval test, as the amended
claim C1 states it: a truthy start day, and some covered day formatting to
the lesson's date whose interval overlaps. -/
theorem absenceAny_eq (a : Absence) (ds : String) (ls lEnd : Nat) :
    ((expandAbsence a).filterMap fun t => if formatUntisDate t.1 = ds then some t.2 else none).any
      (fun t => decide (ls < t.2) && decide (t.1 < lEnd)) =
    (match a.startDate with
     | none => false
     | some sd =>
       decide (sd ≠ 0) &&
         ((coveredDays sd (jsOrNat a.endDate sd)).any fun day =>
           decide (formatUntisDate day = ds) &&
             (decide (ls < (absenceIntervalFor a sd (jsOrNat a.endDate sd) day).2) &&
              decide ((absenceIntervalFor a sd (jsOrNat a.endDate sd) day).1 < lEnd)))) := by
  cases hsd : a.startDate with
  | none =>
    have he : expandAbsence a = [] := by
      unfold expandAbsence
      rw [hsd]
    rw [he]
    rfl
  | some sd =>
    by_cases h0 : sd = 0
    · have he : expandAbsence a = [] := by
        unfold expandAbsence
        rw [hsd]
        simp [h0]
      rw [he]
      simp [h0]
    · rw [expandAbsence_eq a sd hsd h0, filterMap_if_any_over_map]
      have hd : (decide (sd ≠ 0)) = true := by simp [h0]
      simp only [hd, Bool.true_and]

/-- The per-lesson output of the reconciler coincides with the amended
claim-C1 description of it (this holds for arbitrary inputs: the loop walk
and the covered-days walk are the same list). -/
theorem processLesson_eq_amended (absences : List Absence) (l : Lesson) :
    processLesson absences l = amendedEntry absences l := by
  unfold processLesson amendedEntry
  cases hdate : l.date with
  | none => rfl
  | some d =>
    by_cases hd0 : d = 0
    · simp only [if_pos hd0]
    · simp only [if_neg hd0]
      simp only [intervalsForDate, any_flatMap, absenceAny_eq]

theorem filter_length_mono {α : Type} (l : List α) (p q : α → Bool)
    (h : ∀ x ∈ l, p x = true → q x = true) :
    (l.filter p).length ≤ (l.filter q).length := by
  induction l with
  | nil => simp
  | cons x xs ih =>
    have ih2 := ih fun y hy => h y (List.mem_cons_of_mem x hy)
    by_cases hp : p x = true
    · have hq := h x (List.mem_cons_self x xs) hp
      rw [List.filter_cons, List.filter_cons, if_pos hp, if_pos hq]
      simpa using ih2
    · rw [List.filter_cons, if_neg hp]
      by_cases hq : q x = true
      · rw [List.filter_cons, if_pos hq]
        simp only [List.length_cons]
        omega
      · rw [List.filter_cons, if_neg hq]
        exact ih2

theorem filter_length_split {α : Type} (l : List α) (p q : α → Bool) :
    (l.filter p).length =
      (l.filter fun x => p x && q x).length + (l.filter fun x => p x && !q x).length := by
  induction l with
  | nil => simp
  | cons x xs ih =>
    rw [List.filter_cons, List.filter_cons, List.filter_cons]
    by_cases hp : p x = true
    · by_cases hq : q x = true
      · rw [if_pos hp, if_pos (by simp [hp, hq]), if_neg (by simp [hp, hq])]
        simp only [List.length_cons]
        omega
      · rw [if_pos hp, if_neg (by simp [hp, hq]), if_pos (by simp [hp, hq])]
        simp only [List.length_cons]
        omega
    · rw [if_neg hp, if_neg (by simp [hp]), if_neg (by simp [hp])]
      exact ih

theorem jsRound_nonneg (q : ℚ) (h : 0 ≤ q) : 0 ≤ jsRound q := by
  unfold jsRound
  have : (0 : ℚ) ≤ q + 1 / 2 := by linarith
  exact Int.le_floor.mpr (by push_cast; linarith)

theorem jsRound_le_of_le (q : ℚ) (B : ℤ) (h : q ≤ B) : jsRound q ≤ B := by
  unfold jsRound
  have : q + 1 / 2 < (B : ℚ) + 1 := by
    push_cast
    linarith
  have hfl : ⌊q + 1 / 2⌋ < B + 1 := by
    apply Int.floor_lt.mpr
    push_cast
    linarith
  omega

theorem ratePercent2_nonneg (a r : Nat) : 0 ≤ ratePercent2 a r := by
  unfold ratePercent2
  have hq : (0 : ℚ) ≤ ((a : ℚ) / r) * 100 * 100 := by positivity
  have := jsRound_nonneg _ hq
  have hcast : (0 : ℚ) ≤ ((jsRound (((a : ℚ) / r) * 100 * 100) : ℤ) : ℚ) := by
    exact_mod_cast this
  positivity

theorem ratePercent2_le_100 (a r : Nat) (har : a ≤ r) (hr : 0 < r) : ratePercent2 a r ≤ 100 := by
  unfold ratePercent2
  have hrq : (0 : ℚ) < (r : ℚ) := by exact_mod_cast hr
  have hdiv : (a : ℚ) / r ≤ 1 := by
    rw [div_le_one hrq]
    exact_mod_cast har
  have hq : ((a : ℚ) / r) * 100 * 100 ≤ ((10000 : ℤ) : ℚ) := by
    push_cast
    nlinarith
  have hle := jsRound_le_of_le _ _ hq
  have hcast : ((jsRound (((a : ℚ) / r) * 100 * 100) : ℤ) : ℚ) ≤ 10000 := by
    exact_mod_cast hle
  linarith

theorem trendStep_eq (lessons : List ProcessedLesson) (acc : List DailyTrendPoint) (ds : String) :
    trendStep lessons acc ds = acc ++ [trendPointFor lessons acc.getLast? ds] := by
  unfold trendStep trendPointFor
  cases cumulLookup lessons ds with
  | none =>
    cases acc.getLast? with
    | none => rfl
    | some p => rfl
  | some pr =>
    cases pr with
    | mk ca cr => rfl

theorem trendFoldl_eq (lessons : List ProcessedLesson) :
    ∀ (dates : List String) (acc : List DailyTrendPoint),
      dates.foldl (trendStep lessons) acc = acc ++ buildTrend lessons acc.getLast? dates := by
  intro dates
  induction dates with
  | nil => intro acc; simp [buildTrend]
  | cons ds rest ih =>
    intro acc
    rw [List.foldl_cons, trendStep_eq, ih]
    rw [List.getLast?_concat]
    have hb : buildTrend lessons acc.getLast? (ds :: rest) =
        trendPointFor lessons acc.getLast? ds ::
          buildTrend lessons (some (trendPointFor lessons acc.getLast? ds)) rest := rfl
    rw [hb, List.append_assoc]
    rfl

theorem buildTrend_length (lessons : List ProcessedLesson) :
    ∀ (dates : List String) (prev : Option DailyTrendPoint),
      (buildTrend lessons prev dates).length = dates.length := by
  intro dates
  induction dates with
  | nil => intro prev; rfl
  | cons ds rest ih =>
    intro prev
    unfold buildTrend
    simp only [List.length_cons, ih]

theorem buildTrend_getD_zero (lessons : List ProcessedLesson) (prev : Option DailyTrendPoint)
    (ds : String) (rest : List String) (dflt : DailyTrendPoint) :
    (buildTrend lessons prev (ds :: rest)).getD 0 dflt = trendPointFor lessons prev ds := rfl

theorem buildTrend_getD_succ (lessons : List ProcessedLesson) :
    ∀ (dates : List String) (prev : Option DailyTrendPoint) (i : Nat) (dflt : DailyTrendPoint),
      i + 1 < dates.length →
      (buildTrend lessons prev dates).getD (i + 1) dflt =
        trendPointFor lessons (some ((buildTrend lessons prev dates).getD i dflt))
          (dates.getD (i + 1) "") := by
  intro dates
  induction dates with
  | nil =>
    intro prev i dflt h
    simp at h
  | cons ds rest ih =>
    intro prev i dflt h
    cases i with
    | zero =>
      cases rest with
      | nil => simp at h
      | cons ds2 rest2 => rfl
    | succ j =>
      have hlen : j + 1 < rest.length := by
        simp only [List.length_cons] at h
        omega
      have hb : buildTrend lessons prev (ds :: rest) =
          trendPointFor lessons prev ds ::
            buildTrend lessons (some (trendPointFor lessons prev ds)) rest := rfl
      rw [hb]
      simp only [List.getD_cons_succ]
      exact ih (some (trendPointFor lessons prev ds)) j dflt hlen

instance (n : Nat) : Decidable (validDayCode n) := by
  unfold validDayCode
  infer_instance

theorem intervalsForDate_skip (as1 as2 : List Absence) (a : Absence) (ha : a.startDate = none)
    (ds : String) :
    intervalsForDate (as1 ++ a :: as2) ds = intervalsForDate (as1 ++ as2) ds := by
  unfold intervalsForDate
  rw [List.flatMap_append, List.flatMap_cons, List.flatMap_append]
  have he : expandAbsence a = [] := by
    unfold expandAbsence
    rw [ha]
  rw [he]
  simp

theorem processLesson_congr (abs1 abs2 : List Absence)
    (h : ∀ ds, intervalsForDate abs1 ds = intervalsForDate abs2 ds) (l : Lesson) :
    processLesson abs1 l = processLesson abs2 l := by
  unfold processLesson
  cases l.date with
  | none => rfl
  | some d =>
    by_cases hd0 : d = 0
    · simp only [if_pos hd0]
    · simp only [if_neg hd0, h]

/-- Claim C9: for every day-code that is exactly 8 digits and denotes a
calendar date, decoding it into year, month and day components and
re-encoding those components yields the identical integer. -/
theorem C9_daycode_roundtrip (n : Nat) (h8 : 10000000 ≤ n ∧ n < 100000000)
    (hcal : 1 ≤ decodeMonth n ∧ decodeMonth n ≤ 12 ∧ 1 ≤ decodeDay n ∧
      decodeDay n ≤ daysInMonth (decodeYear n) (decodeMonth n)) :
    encodeYMD (decodeYear n, decodeMonth n, decodeDay n) = n :=
  decode_recompose n h8.2

theorem C9_daycode_roundtrip_witness :
    (10000000 ≤ 20250106 ∧ 20250106 < 100000000) ∧
      (1 ≤ decodeMonth 20250106 ∧ decodeMonth 20250106 ≤ 12 ∧ 1 ≤ decodeDay 20250106 ∧
        decodeDay 20250106 ≤ daysInMonth (decodeYear 20250106) (decodeMonth 20250106)) ∧
      encodeYMD (decodeYear 20250106, decodeMonth 20250106, decodeDay 20250106) = 20250106 :=
  ⟨⟨by norm_num, by norm_num⟩, by decide,
    C9_daycode_roundtrip 20250106 ⟨by norm_num, by norm_num⟩ (by decide)⟩

/-- Claim C4, counterexample: with the timetable, absences and the ISO
timestamp all fixed, the snapshot still differs between two ambient-clock
readings, so the output is not a function of the source function's declared
parameters: "now" is an implicit clock read inside `calculateStats`
(`new Date()` in the aggregators), not an explicit parameter. -/
theorem C4_implicit_clock_counterexample :
    calculateStats
        [{ date := some 20250106, startTime := some 800, endTime := some 845, su := [], code := none }]
        [{ startDate := some 20250106, endDate := some 20250106, startTime := some 800, endTime := some 845 }]
        20250106 "2025-01-06T12:00:00.000Z" ≠
      calculateStats
        [{ date := some 20250106, startTime := some 800, endTime := some 845, su := [], code := none }]
        [{ startDate := some 20250106, endDate := some 20250106, startTime := some 800, endTime := some 845 }]
        20250301 "2025-01-06T12:00:00.000Z" := by
  intro h
  have h2 := congrArg UserStatsData.absenceCounts h
  revert h2
  decide

/-- Claim C4, amended: `calculateStats` is deterministic in its inputs and
the ambient clock: identical timetable, absences and clock reading (day-code
plus ISO timestamp, the only state `new Date()` contributes) give identical
snapshots.  "Now" is however read implicitly from the system clock inside
the engine, not supplied by the caller. -/
theorem C4_determinism (tt1 tt2 : List Lesson) (ab1 ab2 : List Absence) (t1 t2 : Nat)
    (iso1 iso2 : String) (htt : tt1 = tt2) (hab : ab1 = ab2) (ht : t1 = t2) (hiso : iso1 = iso2) :
    calculateStats tt1 ab1 t1 iso1 = calculateStats tt2 ab2 t2 iso2 := by
  subst htt
  subst hab
  subst ht
  subst hiso
  rfl

theorem C4_determinism_witness :
    calculateStats [] [] 20250106 "2025-01-06T00:00:00.000Z" =
      calculateStats [] [] 20250106 "2025-01-06T00:00:00.000Z" :=
  C4_determinism [] [] [] [] 20250106 20250106 "2025-01-06T00:00:00.000Z"
    "2025-01-06T00:00:00.000Z" rfl rfl rfl rfl

/-- Claim C8: the engine never raises on malformed records — a lesson
without a date contributes no ledger entry and an absence without a start
day-code is ignored, each skipped without aborting the batch; and empty
inputs are valid, giving all-zero counts, all-neutral trends with zero
percent, and 30 zero-valued trend points. -/
theorem C8_malformed_and_empty :
    (∀ (tt1 tt2 : List Lesson) (l : Lesson) (absences : List Absence), l.date = none →
      processLessonData (tt1 ++ l :: tt2) absences = processLessonData (tt1 ++ tt2) absences) ∧
    (∀ (tt : List Lesson) (as1 as2 : List Absence) (a : Absence), a.startDate = none →
      processLessonData tt (as1 ++ a :: as2) = processLessonData tt (as1 ++ as2)) ∧
    (∀ (today : Nat) (iso : String),
      (calculateStats [] [] today iso).absenceCounts = ⟨0, 0, 0, 0⟩ ∧
      (calculateStats [] [] today iso).trendChanges =
        ⟨⟨0, 0, Direction.neutral⟩, ⟨0, 0, Direction.neutral⟩, ⟨0, 0, Direction.neutral⟩⟩ ∧
      (calculateStats [] [] today iso).dailyTrend.length = 30 ∧
      ∀ p ∈ (calculateStats [] [] today iso).dailyTrend,
        p.absenceRate = 0 ∧ p.totalLessons = 0 ∧ p.absences = 0) := by
  refine ⟨?_, ?_, ?_⟩
  · intro tt1 tt2 l absences hdate
    unfold processLessonData
    rw [List.filterMap_append, List.filterMap_append, List.filterMap_cons]
    have : processLesson absences l = none := by
      unfold processLesson
      rw [hdate]
    rw [this]
  · intro tt as1 as2 a ha
    unfold processLessonData
    have : ∀ l, processLesson (as1 ++ a :: as2) l = processLesson (as1 ++ as2) l :=
      processLesson_congr _ _ (intervalsForDate_skip as1 as2 a ha)
    exact List.filterMap_congr fun l _ => this l
  · intro today iso
    refine ⟨rfl, rfl, ?_, ?_⟩
    · have : (calculateStats [] [] today iso).dailyTrend = (trendDates today).map emptyTrendPoint := rfl
      rw [this]
      simp [trendDates]
    · intro p hp
      have h1 : (calculateStats [] [] today iso).dailyTrend = (trendDates today).map emptyTrendPoint := rfl
      rw [h1] at hp
      obtain ⟨ds, _, rfl⟩ := List.mem_map.mp hp
      exact ⟨rfl, rfl, rfl⟩

theorem C8_malformed_and_empty_witness :
    processLessonData ([] ++ ({ date := none, startTime := none, endTime := none, su := [], code := none } : Lesson) :: []) [] =
        processLessonData ([] ++ []) [] ∧
      processLessonData [] ([] ++ ({ startDate := none, endDate := none, startTime := none, endTime := none } : Absence) :: []) =
        processLessonData [] ([] ++ []) ∧
      (calculateStats [] [] 20250106 "2025-01-06T00:00:00.000Z").absenceCounts = ⟨0, 0, 0, 0⟩ :=
  ⟨C8_malformed_and_empty.1 [] [] _ [] rfl,
    C8_malformed_and_empty.2.1 [] [] [] _ rfl,
    (C8_malformed_and_empty.2.2 20250106 "2025-01-06T00:00:00.000Z").1⟩

/-- Claim C5: every snapshot's absence counts are non-negative and satisfy
`last7Days ≤ last14Days ≤ last30Days ≤ allTime` (the windows are nested and
all window predicates entail `isAbsent`). -/
theorem C5_counts_monotone (timetable : List Lesson) (absences : List Absence) (today : Nat)
    (iso : String) (hv : validDayCode today) (hy : 1000 ≤ decodeYear today) :
    (0 ≤ (calculateStats timetable absences today iso).absenceCounts.last7Days ∧
      0 ≤ (calculateStats timetable absences today iso).absenceCounts.last14Days ∧
      0 ≤ (calculateStats timetable absences today iso).absenceCounts.last30Days ∧
      0 ≤ (calculateStats timetable absences today iso).absenceCounts.allTime) ∧
    (calculateStats timetable absences today iso).absenceCounts.last7Days ≤
      (calculateStats timetable absences today iso).absenceCounts.last14Days ∧
    (calculateStats timetable absences today iso).absenceCounts.last14Days ≤
      (calculateStats timetable absences today iso).absenceCounts.last30Days ∧
    (calculateStats timetable absences today iso).absenceCounts.last30Days ≤
      (calculateStats timetable absences today iso).absenceCounts.allTime := by
  have hAC : (calculateStats timetable absences today iso).absenceCounts =
      calculateAbsenceCounts (processLessonData timetable absences) today := rfl
  rw [hAC]
  set pl := processLessonData timetable absences with hpl
  have hwin : ∀ w1 w2 : Nat, subDays today w2 ≤ subDays today w1 →
      (pl.filter fun l => lessonInWindow today w1 l && l.isAbsent).length ≤
        (pl.filter fun l => lessonInWindow today w2 l && l.isAbsent).length := by
    intro w1 w2 hsub
    apply filter_length_mono
    intro l _ hl
    unfold lessonInWindow at hl ⊢
    cases hp : parseISODate l.date with
    | none =>
      rw [hp] at hl
      simp at hl
    | some c =>
      rw [hp] at hl
      have hl2 : (decide (subDays today w1 ≤ c) && l.isAbsent) = true := hl
      show (decide (subDays today w2 ≤ c) && l.isAbsent) = true
      simp only [Bool.and_eq_true, decide_eq_true_eq] at hl2 ⊢
      exact ⟨by omega, hl2.2⟩
  have hall : ∀ w : Nat,
      (pl.filter fun l => lessonInWindow today w l && l.isAbsent).length ≤
        (pl.filter fun l => l.isAbsent).length := by
    intro w
    apply filter_length_mono
    intro l _ hl
    simp only [Bool.and_eq_true] at hl
    exact hl.2
  have h714 : subDays today 14 ≤ subDays today 7 := subDays_mono today hv 7 14 (by omega) (by omega)
  have h1430 : subDays today 30 ≤ subDays today 14 := subDays_mono today hv 14 30 (by omega) (by omega)
  refine ⟨⟨Nat.zero_le _, Nat.zero_le _, Nat.zero_le _, Nat.zero_le _⟩, ?_, ?_, ?_⟩
  · exact hwin 7 14 h714
  · exact hwin 14 30 h1430
  · have := hall 30
    have hmax : max 0 (pl.filter fun l => l.isAbsent).length = (pl.filter fun l => l.isAbsent).length :=
      Nat.zero_max _
    calc (calculateAbsenceCounts pl today).last30Days
        = (pl.filter fun l => lessonInWindow today 30 l && l.isAbsent).length := rfl
      _ ≤ (pl.filter fun l => l.isAbsent).length := hall 30
      _ = (calculateAbsenceCounts pl today).allTime := by
          rw [show (calculateAbsenceCounts pl today).allTime =
            max 0 (pl.filter fun l => l.isAbsent).length from rfl, hmax]

theorem C5_counts_monotone_witness :
    validDayCode 20250106 ∧ 1000 ≤ decodeYear 20250106 ∧
      ((0 ≤ (calculateStats [] [] 20250106 "t").absenceCounts.last7Days ∧
        0 ≤ (calculateStats [] [] 20250106 "t").absenceCounts.last14Days ∧
        0 ≤ (calculateStats [] [] 20250106 "t").absenceCounts.last30Days ∧
        0 ≤ (calculateStats [] [] 20250106 "t").absenceCounts.allTime) ∧
      (calculateStats [] [] 20250106 "t").absenceCounts.last7Days ≤
        (calculateStats [] [] 20250106 "t").absenceCounts.last14Days ∧
      (calculateStats [] [] 20250106 "t").absenceCounts.last14Days ≤
        (calculateStats [] [] 20250106 "t").absenceCounts.last30Days ∧
      (calculateStats [] [] 20250106 "t").absenceCounts.last30Days ≤
        (calculateStats [] [] 20250106 "t").absenceCounts.allTime) :=
  ⟨by decide, by decide, C5_counts_monotone [] [] 20250106 "t" (by decide) (by decide)⟩

/-- Claim C6: every subject's statistics satisfy
`attended + absences + cancelled = total`; the absence rate is the
two-decimal rounding of `absences / (total − cancelled) × 100` when
`total > cancelled` and `0` when `total = cancelled`; and it lies in
`[0, 100]`. -/
theorem C6_subject_invariants (lessons : List ProcessedLesson) (s : String) (st : SubjectStats)
    (h : calculateSubjectBreakdown lessons s = some st) :
    st.attended + st.absences + st.cancelled = st.total ∧
    (st.total = st.cancelled → st.absenceRate = 0) ∧
    (st.cancelled < st.total →
      st.absenceRate = ratePercent2 st.absences (st.total - st.cancelled)) ∧
    0 ≤ st.absenceRate ∧ st.absenceRate ≤ 100 := by
  unfold calculateSubjectBreakdown at h
  by_cases hocc : (lessons.any fun l => l.subject == s) = true
  · rw [if_pos hocc] at h
    rw [Option.some.injEq] at h
    subst h
    have hsplit1 := filter_length_split lessons (fun l => l.subject == s) (fun l => l.isCancelled)
    have hsplit2 := filter_length_split lessons (fun l => l.subject == s && !l.isCancelled)
      (fun l => l.isAbsent)
    set T := (lessons.filter fun l => l.subject == s).length with hT
    set C := (lessons.filter fun l => (l.subject == s) && l.isCancelled).length with hC
    set A := (lessons.filter fun l => (l.subject == s) && !l.isCancelled && l.isAbsent).length with hA
    set At := (lessons.filter fun l => (l.subject == s) && !l.isCancelled && !l.isAbsent).length with hAt
    simp only
    by_cases h0 : 0 < T - C
    · rw [if_pos h0]
      refine ⟨by omega, by omega, ?_, ?_, ?_⟩
      · intro _
        rfl
      · exact ratePercent2_nonneg _ _
      · exact ratePercent2_le_100 A (T - C) (by omega) h0
    · rw [if_neg h0]
      refine ⟨by omega, fun _ => rfl, by omega, le_refl 0, by norm_num⟩
  · rw [if_neg hocc] at h
    exact absurd h (by simp)

theorem C6_subject_invariants_witness :
    calculateSubjectBreakdown
        [{ date := "2025-01-06", subject := "Math", isCancelled := true, isAbsent := false }]
        "Math" = some { attended := 0, absences := 0, cancelled := 1, total := 1, absenceRate := 0 } ∧
      ((0 : Nat) + 0 + 1 = 1 ∧
        ((1 : Nat) = 1 → (0 : ℚ) = 0) ∧
        ((1 : Nat) < 1 → (0 : ℚ) = ratePercent2 0 (1 - 1)) ∧
        (0 : ℚ) ≤ 0 ∧ (0 : ℚ) ≤ 100) :=
  ⟨by decide,
    C6_subject_invariants
      [{ date := "2025-01-06", subject := "Math", isCancelled := true, isAbsent := false }]
      "Math" { attended := 0, absences := 0, cancelled := 1, total := 1, absenceRate := 0 }
      (by decide)⟩

/-- Claim C2, counterexample: an absent entry dated exactly `today − 7` lies
in the claim's current window `[today − 7, today]` but not in the engine's
(the `endDate` bound `today − 7` at 23:59:59.999 excludes that whole day),
so with an empty previous window the claim predicts `changePercent = 100`,
`direction = up`, while the engine returns `0`, `neutral`. -/
theorem C2_window_counterexample :
    (calculateTrendChanges
        [{ date := "2025-01-24", subject := "Math", isCancelled := false, isAbsent := true }]
        20250131).last7Days ≠
      (claimTrendChanges
        [{ date := "2025-01-24", subject := "Math", isCancelled := false, isAbsent := true }]
        20250131).last7Days := by
  decide

/-- Claim C2, amended: for each window size W the current count is over
`(today − W, today]` (W days) and the previous count over
`(today − 2W, today − W − 1]` (W − 1 days, the day `today − W` in neither
window); `previousValue` is the previous count and the percent/direction
rules are as claimed: 100 when previous = 0 < current, 0 when both are 0,
otherwise the rounded relative change, with the direction given by the sign. -/
theorem C2_amended_trend (lessons : List ProcessedLesson) (today : Nat) :
    (calculateTrendChanges lessons today =
      { last7Days := amendedTrendFor lessons today 7
        last14Days := amendedTrendFor lessons today 14
        last30Days := amendedTrendFor lessons today 30 }) ∧
    (∀ c : Nat, (calculateTrendData c 0).previousValue = 0 ∧
      (0 < c → (calculateTrendData c 0).changePercent = 100 ∧
        (calculateTrendData c 0).direction = Direction.up) ∧
      (c = 0 → (calculateTrendData c 0).changePercent = 0 ∧
        (calculateTrendData c 0).direction = Direction.neutral)) ∧
    (∀ c p : Nat, 0 < p → (calculateTrendData c p).previousValue = p ∧
      (calculateTrendData c p).changePercent = jsRound ((((c : ℚ)) - p) / p * 100) ∧
      (calculateTrendData c p).direction =
        (if 0 < (calculateTrendData c p).changePercent then Direction.up
         else if (calculateTrendData c p).changePercent < 0 then Direction.down
         else Direction.neutral)) := by
  refine ⟨rfl, ?_, ?_⟩
  · intro c
    refine ⟨rfl, ?_, ?_⟩
    · intro hc
      unfold calculateTrendData
      norm_num [hc]
    · intro hc
      subst hc
      unfold calculateTrendData
      norm_num
  · intro c p hp
    have hp0 : ¬ p = 0 := by omega
    unfold calculateTrendData
    simp [hp0]

theorem C2_amended_trend_witness :
    (calculateTrendChanges [] 20250131 =
      { last7Days := amendedTrendFor [] 20250131 7
        last14Days := amendedTrendFor [] 20250131 14
        last30Days := amendedTrendFor [] 20250131 30 }) ∧
      ((calculateTrendData 1 0).changePercent = 100 ∧
        (calculateTrendData 1 0).direction = Direction.up) ∧
      (calculateTrendData 1 2).changePercent = jsRound ((((1 : ℚ)) - 2) / 2 * 100) :=
  ⟨(C2_amended_trend [] 20250131).1,
    ((C2_amended_trend [] 20250131).2.1 1).2.1 (by omega),
    ((C2_amended_trend [] 20250131).2.2 1 2 (by omega)).2.1⟩

/-- Claim C3, counterexample: the engine's window filter has no upper
bound, so an absent entry dated after "today" is counted in every trailing
window, where the claim's inclusive `[today − W, today]` window excludes it. -/
theorem C3_window_counterexample :
    calculateAbsenceCounts
        [{ date := "2025-01-16", subject := "x", isCancelled := false, isAbsent := true }]
        20250115 ≠
      claimAbsenceCounts
        [{ date := "2025-01-16", subject := "x", isCancelled := false, isAbsent := true }]
        20250115 := by
  decide

/-- Claim C3, amended: for each window size W the engine counts absent
entries whose parsed date is at least `today − W` (truncated to midnight)
with no upper bound; "today" is the ambient clock read inside the function,
not a caller-supplied argument.  The all-time count is the total number of
absent entries of the supplied ledger, recomputed from scratch on every
call. -/
theorem C3_amended_counts (lessons : List ProcessedLesson) (today : Nat) :
    calculateAbsenceCounts lessons today =
      { last7Days := amendedWindowCount lessons today 7
        last14Days := amendedWindowCount lessons today 14
        last30Days := amendedWindowCount lessons today 30
        allTime := (lessons.filter fun l => l.isAbsent).length } := by
  unfold calculateAbsenceCounts amendedWindowCount
  rw [Nat.zero_max]
  rfl

theorem mem_takeWhile_of_prefix {α : Type} (p : α → Bool) :
    ∀ (l : List α) (k : Nat) (hk : k < l.length),
      (∀ j (hj : j < l.length), j ≤ k → p (l.get ⟨j, hj⟩) = true) →
      l.get ⟨k, hk⟩ ∈ l.takeWhile p := by
  intro l
  induction l with
  | nil =>
    intro k hk
    simp at hk
  | cons x xs ih =>
    intro k hk hall
    have hx : p x = true := hall 0 (by simp) (by omega)
    rw [List.takeWhile_cons, if_pos hx]
    cases k with
    | zero => simp
    | succ j =>
      have hj : j < xs.length := by simpa using hk
      have hall2 : ∀ i (hi : i < xs.length), i ≤ j → p (xs.get ⟨i, hi⟩) = true := by
        intro i hi hij
        have := hall (i + 1) (by simpa using hi) (by omega)
        simpa using this
      have hmem := ih j hj hall2
      have hget : (x :: xs).get ⟨j + 1, hk⟩ = xs.get ⟨j, hj⟩ := rfl
      rw [hget]
      exact List.mem_cons_of_mem x hmem

/-- Under the data-model hypotheses (valid start, end code of at most 8
digits) the bounded covered-days list misses no day the expansion loop
would visit: every iterate whose whole prefix stays within the end bound
is in the list. -/
theorem coveredDays_complete (sd ed k : Nat) (hv : validDayCode sd) (hed : ed ≤ 99999999)
    (hpre : ∀ j, j ≤ k → iterInc j sd ≤ ed) : iterInc k sd ∈ coveredDays sd ed := by
  obtain ⟨hvk, hadv⟩ := iterInc_prefix_valid k sd ed hv hed hpre
  have hkend := hpre k (le_refl k)
  have hk : k < ed + 1 - sd := by omega
  unfold coveredDays
  have hlen : k < ((List.range (ed + 1 - sd)).map fun j => iterInc j sd).length := by
    simpa using hk
  have hget : ∀ j (hj : j < ((List.range (ed + 1 - sd)).map fun i => iterInc i sd).length),
      ((List.range (ed + 1 - sd)).map fun i => iterInc i sd).get ⟨j, hj⟩ = iterInc j sd := by
    intro j hj
    simp
  have hmem := mem_takeWhile_of_prefix (fun day => decide (day ≤ ed)) _ k hlen ?_
  · rw [hget k hlen] at hmem
    exact hmem
  · intro j hj hjk
    rw [hget j hj]
    have hle := hpre j hjk
    simpa using hle

/-- Claim C1, counterexample: a single-day absence with a present `endTime`
of `0`.  The claim's exact interval is `[100, 0]`, which overlaps nothing,
so the lesson 150–300 should not be absent; the engine's `endTime || 2359`
default turns the interval into `[100, 2359]` and marks it absent. -/
theorem C1_exact_interval_counterexample :
    (processLessonData
        [{ date := some 20250106, startTime := some 150, endTime := some 300, su := [], code := none }]
        [{ startDate := some 20250106, endDate := none, startTime := some 100, endTime := some 0 }]).map
        (fun e => e.isAbsent) = [true] ∧
      claimAbsent
        [{ startDate := some 20250106, endDate := none, startTime := some 100, endTime := some 0 }]
        { date := some 20250106, startTime := some 150, endTime := some 300, su := [], code := none } = false := by
  constructor
  · decide
  · decide

/-- Claim C1, amended: for every lesson with a present, non-zero date the
reconciler emits exactly one ledger entry, in input order, with
`isCancelled` exactly when `code = 'cancelled'`; a cancelled lesson is never
absent; a non-cancelled lesson is absent iff its time range — with missing
or zero times defaulted to `0` / `2359` — overlaps, under
`lessonStart < intervalEnd AND lessonEnd > intervalStart`, the interval of
some covered day of some absence with truthy start whose formatted date
equals the lesson's, where the covered days are the successive
`incrementUntisDate` iterates of the start staying at most the (defaulted)
end, and the day intervals are as claimed except that a missing or zero
absence `startTime`/`endTime` defaults to `0` / `2359` (so a present
`endTime` of `0` means end-of-day, not an exact bound).  Under the data
model (valid start date, end code at most 8 digits) the bounded walk covers
every such day. -/
theorem C1_amended_reconciler :
    (∀ (timetable : List Lesson) (absences : List Absence),
      processLessonData timetable absences = timetable.filterMap (amendedEntry absences)) ∧
    (∀ sd ed k, validDayCode sd → ed ≤ 99999999 →
      (∀ j, j ≤ k → iterInc j sd ≤ ed) → iterInc k sd ∈ coveredDays sd ed) := by
  constructor
  · intro timetable absences
    unfold processLessonData
    exact List.filterMap_congr fun l _ => processLesson_eq_amended absences l
  · intro sd ed k hv hed hpre
    exact coveredDays_complete sd ed k hv hed hpre

theorem C1_amended_reconciler_witness :
    processLessonData
        [{ date := some 20250106, startTime := some 150, endTime := some 300, su := [], code := none }]
        [{ startDate := some 20250106, endDate := some 20250107, startTime := some 100, endTime := some 0 }] =
      List.filterMap
        (amendedEntry
          [{ startDate := some 20250106, endDate := some 20250107, startTime := some 100, endTime := some 0 }])
        [{ date := some 20250106, startTime := some 150, endTime := some 300, su := [], code := none }] ∧
      iterInc 1 20250106 ∈ coveredDays 20250106 20250107 :=
  ⟨C1_amended_reconciler.1 _ _,
    C1_amended_reconciler.2 20250106 20250107 1 (by decide) (by decide) (by decide)⟩

/-- Claim C10: `incrementUntisDate` strictly increases every valid calendar
day-code, so for every absence whose start day-code is a valid calendar
date (and whose end field, a day-code per the data model, has at most 8
digits) the running date of the expansion loop eventually exceeds the
defaulted end date — the loop terminates; and when the end is smaller than
the start the absence contributes no intervals at all. -/
theorem C10_expansion_terminates :
    (∀ d, validDayCode d → d < incrementUntisDate d) ∧
    (∀ (a : Absence) (sd : Nat), a.startDate = some sd → validDayCode sd →
      (∀ e, a.endDate = some e → e ≤ 99999999) →
      (∃ k, jsOrNat a.endDate sd < iterInc k sd) ∧
      (jsOrNat a.endDate sd < sd → expandAbsence a = [])) := by
  constructor
  · exact fun d hd => incrementUntisDate_gt d hd
  · intro a sd hsd hv hend
    have hsd8 : sd ≤ 99999999 := by
      have := hv.1
      omega
    have hed : jsOrNat a.endDate sd ≤ 99999999 := by
      unfold jsOrNat
      cases he : a.endDate with
      | none => exact hsd8
      | some e =>
        have := hend e he
        show (if e = 0 then sd else e) ≤ 99999999
        split <;> omega
    constructor
    · exact iterInc_exceeds_aux (jsOrNat a.endDate sd + 1 - sd) sd _ hv hed (le_refl _)
    · intro hlt
      have h0 : ¬ sd = 0 := by
        obtain ⟨hlt8, hy1, _, hm1, _, hd1, _⟩ := hv
        have hrec : encodeYMD (decodeYear sd, decodeMonth sd, decodeDay sd) = sd :=
          decode_recompose sd hlt8
        simp only [encodeYMD] at hrec
        omega
      unfold expandAbsence
      rw [hsd]
      show (if sd = 0 then []
        else expandFrom a sd (jsOrNat a.endDate sd) (jsOrNat a.endDate sd + 1 - sd) sd) = []
      rw [if_neg h0]
      have hfuel : jsOrNat a.endDate sd + 1 - sd = 0 := by omega
      rw [hfuel]
      rfl

theorem C10_expansion_terminates_witness :
    (20250106 < incrementUntisDate 20250106) ∧
      (∃ k, jsOrNat (Absence.mk (some 20250106) (some 20250101) none none).endDate 20250106 <
        iterInc k 20250106) ∧
      (jsOrNat (Absence.mk (some 20250106) (some 20250101) none none).endDate 20250106 < 20250106 →
        expandAbsence (Absence.mk (some 20250106) (some 20250101) none none) = []) :=
  ⟨C10_expansion_terminates.1 20250106 (by decide),
    (C10_expansion_terminates.2 (Absence.mk (some 20250106) (some 20250101) none none) 20250106 rfl
      (by decide) (by intro e he; simp at he; omega)).1,
    (C10_expansion_terminates.2 (Absence.mk (some 20250106) (some 20250101) none none) 20250106 rfl
      (by decide) (by intro e he; simp at he; omega)).2⟩

theorem trendPointFor_date (lessons : List ProcessedLesson) (prev : Option DailyTrendPoint)
    (ds : String) : (trendPointFor lessons prev ds).date = ds := by
  unfold trendPointFor
  cases cumulLookup lessons ds with
  | some pr =>
    cases pr with
    | mk ca cr => rfl
  | none => cases prev <;> rfl

theorem buildTrend_getD_head (lessons : List ProcessedLesson) (prev : Option DailyTrendPoint)
    (dates : List String) (dflt : DailyTrendPoint) (h : 0 < dates.length) :
    (buildTrend lessons prev dates).getD 0 dflt = trendPointFor lessons prev (dates.getD 0 "") := by
  cases dates with
  | nil => simp at h
  | cons ds rest => rfl

theorem getD_map_emptyTrendPoint (l : List String) :
    ∀ (i : Nat), i < l.length → ∀ (dflt : DailyTrendPoint),
      (l.map emptyTrendPoint).getD i dflt = emptyTrendPoint (l.getD i "") := by
  induction l with
  | nil =>
    intro i h
    simp at h
  | cons x xs ih =>
    intro i h dflt
    cases i with
    | zero => rfl
    | succ j =>
      simp only [List.map_cons, List.getD_cons_succ]
      exact ih j (by simpa using h) dflt

theorem trendDates_length (today : Nat) : (trendDates today).length = 30 := by
  unfold trendDates
  simp

theorem trendDates_getD (today i : Nat) (h : i < 30) :
    (trendDates today).getD i "" = formatUntisDate (subDays today (29 - i)) := by
  unfold trendDates
  have hlen : i < ((List.range 30).map fun j => formatUntisDate (subDays today (29 - j))).length := by
    simpa using h
  rw [List.getD_eq_getElem _ _ hlen]
  simp

theorem cumulLookup_of_empty (lessons : List ProcessedLesson)
    (h : (ledgerDates lessons).isEmpty = true) (ds : String) : cumulLookup lessons ds = none := by
  have hnil : ledgerDates lessons = [] := by
    cases he : ledgerDates lessons with
    | nil => rfl
    | cons x xs =>
      rw [he] at h
      simp at h
  unfold cumulLookup cumulativeData sortedDates
  rw [hnil, List.mergeSort_nil]
  rfl

theorem calculateDailyTrend_eq_build (lessons : List ProcessedLesson) (today : Nat)
    (h : (ledgerDates lessons).isEmpty = false) :
    calculateDailyTrend lessons today = buildTrend lessons none (trendDates today) := by
  unfold calculateDailyTrend
  rw [h]
  simp only [Bool.false_eq_true, if_false]
  rw [trendFoldl_eq]
  rfl

/-- Claim C7: `calculateDailyTrend` always returns exactly 30 points, for
day offsets 29 down to 0 relative to "today" (consecutive calendar dates,
oldest first, ending today — the date of point `i` is `today − (29 − i)`
days); a date with a recorded cumulative pair emits the cumulative totals
with the two-decimal rate (0 when the denominator is 0); a date with no
recorded pair copies the statistics of the immediately preceding output
point (stamped with the current date) when one exists and emits a zero
point otherwise; and with no ledger data at all, all 30 points are zero
points. -/
theorem C7_daily_trend (lessons : List ProcessedLesson) (today : Nat) :
    (calculateDailyTrend lessons today).length = 30 ∧
    (∀ i, i < 30 →
      ((calculateDailyTrend lessons today).getD i (emptyTrendPoint "")).date =
        formatUntisDate (subDays today (29 - i))) ∧
    (∀ i, i < 30 →
      (∀ ca cr, cumulLookup lessons (formatUntisDate (subDays today (29 - i))) = some (ca, cr) →
        (calculateDailyTrend lessons today).getD i (emptyTrendPoint "") =
          { date := formatUntisDate (subDays today (29 - i))
            absenceRate := if 0 < cr then ratePercent2 ca cr else 0
            totalLessons := cr
            absences := ca }) ∧
      (cumulLookup lessons (formatUntisDate (subDays today (29 - i))) = none →
        (i = 0 → (calculateDailyTrend lessons today).getD 0 (emptyTrendPoint "") =
          emptyTrendPoint (formatUntisDate (subDays today 29))) ∧
        (∀ j, i = j + 1 → (calculateDailyTrend lessons today).getD i (emptyTrendPoint "") =
          { (calculateDailyTrend lessons today).getD j (emptyTrendPoint "") with
              date := formatUntisDate (subDays today (29 - i)) }))) ∧
    ((ledgerDates lessons).isEmpty = true →
      calculateDailyTrend lessons today = (trendDates today).map emptyTrendPoint) := by
  by_cases hemp : (ledgerDates lessons).isEmpty = true
  · have hout : calculateDailyTrend lessons today = (trendDates today).map emptyTrendPoint := by
      unfold calculateDailyTrend
      rw [hemp]
      simp
    have hlk := cumulLookup_of_empty lessons hemp
    have hgd : ∀ i, i < 30 →
        (calculateDailyTrend lessons today).getD i (emptyTrendPoint "") =
          emptyTrendPoint (formatUntisDate (subDays today (29 - i))) := by
      intro i hi
      rw [hout, getD_map_emptyTrendPoint _ i (by rw [trendDates_length]; exact hi),
        trendDates_getD today i hi]
    refine ⟨?_, ?_, ?_, fun _ => hout⟩
    · rw [hout]
      simp [trendDates]
    · intro i hi
      rw [hgd i hi]
      rfl
    · intro i hi
      refine ⟨?_, ?_⟩
      · intro ca cr hsome
        rw [hlk] at hsome
        exact absurd hsome (by simp)
      · intro _
        refine ⟨?_, ?_⟩
        · intro hi0
          subst hi0
          have := hgd 0 (by omega)
          simpa using this
        · intro j hij
          subst hij
          rw [hgd (j + 1) hi, hgd j (by omega)]
          rfl
  · have hne : (ledgerDates lessons).isEmpty = false := by
      cases hval : (ledgerDates lessons).isEmpty with
      | true => exact absurd hval hemp
      | false => rfl
    have hout := calculateDailyTrend_eq_build lessons today hne
    have hlen30 : (trendDates today).length = 30 := trendDates_length today
    have hgd : ∀ i, i < 30 →
        (calculateDailyTrend lessons today).getD i (emptyTrendPoint "") =
          trendPointFor lessons
            (match i with
             | 0 => none
             | j + 1 => some ((calculateDailyTrend lessons today).getD j (emptyTrendPoint "")))
            (formatUntisDate (subDays today (29 - i))) := by
      intro i hi
      cases i with
      | zero =>
        rw [hout, buildTrend_getD_head lessons none (trendDates today) _ (by omega),
          trendDates_getD today 0 (by omega)]
      | succ j =>
        rw [hout, buildTrend_getD_succ lessons (trendDates today) none j _ (by omega),
          trendDates_getD today (j + 1) hi]
    refine ⟨?_, ?_, ?_, ?_⟩
    · rw [hout, buildTrend_length, hlen30]
    · intro i hi
      rw [hgd i hi]
      exact trendPointFor_date _ _ _
    · intro i hi
      refine ⟨?_, ?_⟩
      · intro ca cr hsome
        rw [hgd i hi]
        unfold trendPointFor
        rw [hsome]
      · intro hnone
        refine ⟨?_, ?_⟩
        · intro hi0
          subst hi0
          rw [hgd 0 (by omega)]
          unfold trendPointFor
          rw [hnone]
        · intro j hij
          subst hij
          rw [hgd (j + 1) hi]
          unfold trendPointFor
          rw [hnone]
    · intro habs
      exact absurd habs hemp

theorem C7_daily_trend_witness :
    (calculateDailyTrend ([] : List ProcessedLesson) 20250106).length = 30 ∧
      ((calculateDailyTrend ([] : List ProcessedLesson) 20250106).getD 0
          (emptyTrendPoint "")).date = formatUntisDate (subDays 20250106 29) :=
  ⟨(C7_daily_trend [] 20250106).1, by
    have h := (C7_daily_trend [] 20250106).2.1 0 (by omega)
    simpa using h⟩

end UntisStats
